import Mathlib

/-!
Verification of the jml JSON-subset scanner and byte-buffer layer.

The development shallowly embeds `src/utils/json_parsing.cc`,
`src/utils/json_parsing.h` and `src/utils/buffers.h`.  Bytes are modelled
as `Nat` in `[0, 256)` (plain `Nat`, so that arithmetic automation applies); C++ exceptions are modelled with `Except`, whose
error type distinguishes the exception classes the code can raise
(`Parse_Context` parse errors, `std::out_of_range` from the fixed-capacity
buffer, and `ML::Exception` from the JSON escaper).  `Parse_Context`
itself (declared in `parse_context.h`, which is not part of the sources
here) is modelled from the specification of the cursor: a read-only view
of bytes plus an offset, with non-consuming `match` probes and throwing
`expect` operations.  Loops of the C++ code are embedded as fuelled
recursions; theorems about unbounded inputs carry an explicit
"enough fuel" bound.
-/

/-- The classes of exception the embedded code can raise: `parse` models
exceptions raised through `Parse_Context::exception` and `expect_literal`
(parse errors), `outOfRange` models `std::out_of_range` thrown by
`external_buffer::push_back`, `encoding` models the `ML::Exception`s thrown
by the JSON escaper, and `fuel` is the artifact of embedding C++ loops as
fuelled recursion (it never occurs when enough fuel is supplied). -/
inductive Err where
  | parse (msg : String)
  | outOfRange
  | encoding (msg : String)
  | fuel
deriving DecidableEq

/-- Modelled from the spec: the Cursor is a "position-tracking view over an
input byte sequence", i.e. a read-only list of bytes plus a current offset.
(`parse_context.h` is not among the sources; only its spec and its callers
are.) -/
structure Parse_Context where
  input : List Nat
  ofs : Nat
deriving DecidableEq

/-- Result of an operation that advances a cursor and may throw: on success
a value together with the cursor after the call, on failure the exception
together with the cursor at the point of the throw. -/
abbrev PRes (α : Type _) := Except (Err × Parse_Context) (α × Parse_Context)

/-- The bytes of the input not yet consumed. -/
def Parse_Context.rest (c : Parse_Context) : List Nat := c.input.drop c.ofs

/-- Modelled from the spec: `atEnd()` "reports exhaustion". -/
def Parse_Context.eof (c : Parse_Context) : Bool := c.input.length ≤ c.ofs

/-- Modelled from the spec: `*context++` returns and consumes one byte;
peeking is an error at end-of-input, so consuming past the end raises. -/
def Parse_Context.advance (c : Parse_Context) : PRes Nat :=
  match c.rest with
  | b :: _ => .ok (b, ⟨c.input, c.ofs + 1⟩)
  | [] => .error (.parse "past end of stream", c)

/-- Does `lit` occur byte for byte at the front of `rest`? -/
def litMatches : List Nat → List Nat → Bool
  | [], _ => true
  | _ :: _, [] => false
  | l :: ls, r :: rs => (l = r) && litMatches ls rs

/-- Modelled from the spec: `matchLiteral(seq)` "consumes and returns true
iff the upcoming bytes equal `seq`, otherwise consumes nothing and returns
false". -/
def Parse_Context.matchLit (lit : List Nat) (c : Parse_Context) : Bool × Parse_Context :=
  if litMatches lit c.rest then (true, ⟨c.input, c.ofs + lit.length⟩) else (false, c)

/-- Modelled from the spec: the single-character form of `matchLiteral`. -/
def Parse_Context.matchChar (ch : Nat) (c : Parse_Context) : Bool × Parse_Context :=
  match c.rest with
  | b :: _ => if b = ch then (true, ⟨c.input, c.ofs + 1⟩) else (false, c)
  | [] => (false, c)

/-- Modelled from the spec: `expectLiteral(seq)` "consumes on match,
otherwise raises a parse error carrying the current offset and leaves the
cursor unchanged". -/
def Parse_Context.expectChar (ch : Nat) (c : Parse_Context) : Except (Err × Parse_Context) Parse_Context :=
  match c.rest with
  | b :: _ =>
    if b = ch then .ok ⟨c.input, c.ofs + 1⟩
    else .error (.parse "expected literal", c)
  | [] => .error (.parse "expected literal", c)

/-- Is the byte JSON-insignificant whitespace (space, tab, LF, CR)? -/
def isJsonWs (c : Nat) : Bool := c = 32 || c = 9 || c = 10 || c = 13

/-- Length of the leading whitespace run of a byte list. -/
def wsLen : List Nat → Nat
  | [] => 0
  | c :: r => if isJsonWs c then wsLen r + 1 else 0

/-- Embeds `skipJsonWhitespace` (`json_parsing.cc`): the fast path returns
at once on EOF or a non-whitespace byte, otherwise the loop consumes
space/tab (spec-modelled `match_whitespace`) and CR/LF (spec-modelled
`match_eol`) until neither matches; the net effect is to advance the offset
over the maximal leading whitespace run. -/
def skipJsonWhitespace (c : Parse_Context) : Parse_Context :=
  ⟨c.input, c.ofs + wsLen c.rest⟩

/-- A cursor at the start of the given input. -/
def mkCtx (l : List Nat) : Parse_Context := ⟨l, 0⟩

/-- The error type of the JSON escaper `jsonEscape`: `invalidChar` models
`throw Exception("invalid character in Json string")` from
`jsonEscapeCore`, `bufferFull` models the null return that the wrappers
turn into `ML::Exception("To fix: logic error in JSON escaping")`. -/
inductive EscErr where
  | invalidChar
  | bufferFull
deriving DecidableEq

/-- The `switch (c)` of `jsonEscapeCore`: the byte written after the
backslash, or `none` for the `default:` branch that throws.  The `'/'`
case is kept although it is unreachable from `jsonEscapeCore` (a slash
satisfies the printable fast path and never reaches the switch). -/
def escCode (c : Nat) : Option Nat :=
  if c = 9 then some 116
  else if c = 10 then some 110
  else if c = 13 then some 114
  else if c = 12 then some 102
  else if c = 8 then some 98
  else if c = 47 ∨ c = 92 ∨ c = 34 then some c
  else none

/-- Embeds `jsonEscapeCore` (`json_parsing.cc`): walks the string, checking
before each character that at least 5 output bytes remain (`p + 4 >= end`
returns null, modelled as `.error .bufferFull`); a printable byte other
than quote and backslash (`c >= ' ' && c < 127 && c != '"' && c != '\\'`,
branching identically whether `char` is signed or unsigned) is copied
through, anything else is emitted as a backslash followed by `escCode`,
throwing for bytes with no escape.  Arguments: remaining input, number of
output bytes already written, total output buffer size. -/
def jsonEscapeCore : List Nat → Nat → Nat → Except EscErr (List Nat)
  | [], _, _ => .ok []
  | c :: r, pos, sz =>
    if sz ≤ pos + 4 then .error .bufferFull
    else if 32 ≤ c ∧ c < 127 ∧ c ≠ 34 ∧ c ≠ 92 then
      match jsonEscapeCore r (pos + 1) sz with
      | .ok out => .ok (c :: out)
      | .error e => .error e
    else
      match escCode c with
      | some e2 =>
        match jsonEscapeCore r (pos + 2) sz with
        | .ok out => .ok (92 :: e2 :: out)
        | .error e => .error e
      | none => .error .invalidChar

/-- Embeds `jsonEscape` (`json_parsing.cc`): runs `jsonEscapeCore` into a
stack buffer of `4 * size + 4` bytes and returns the written span. -/
def jsonEscape (s : List Nat) : Except EscErr (List Nat) :=
  jsonEscapeCore s 0 (4 * s.length + 4)

/-- Specification view of the escaper's per-byte output, mirroring the
branches of `jsonEscapeCore` exactly (`[]` is the unreachable value for
bytes on which the escaper throws). -/
def escByte (c : Nat) : List Nat :=
  if 32 ≤ c ∧ c < 127 ∧ c ≠ 34 ∧ c ≠ 92 then [c]
  else
    match escCode c with
    | some e2 => [92, e2]
    | none => []

/-- Specification view of the escaper's whole output. -/
def escBody : List Nat → List Nat
  | [] => []
  | c :: r => escByte c ++ escBody r

/-- The set of bytes the escaper accepts: the five escapable control bytes
plus printable ASCII. -/
def escapableB (c : Nat) : Prop :=
  c = 9 ∨ c = 10 ∨ c = 13 ∨ c = 12 ∨ c = 8 ∨ (32 ≤ c ∧ c ≤ 126)

instance (c : Nat) : Decidable (escapableB c) := by
  unfold escapableB; infer_instance

/-- Embeds `growing_buffer` (`buffers.h`): logical contents, current
capacity, and (for the heap-allocation claims) the number of heap
allocations performed so far.  `pos` of the C++ code is `data.length`. -/
structure growing_buffer where
  data : List Nat
  size : Nat
  allocs : Nat
deriving DecidableEq

/-- A fresh `growing_buffer`: inline storage of 4096 bytes, no heap
allocation yet. -/
def growing_buffer.mk0 : growing_buffer := ⟨[], 4096, 0⟩

/-- Embeds `growing_buffer::push_back`: when the buffer is full it
allocates a new buffer of 8 times the capacity, copies the contents over
and transfers ownership; then writes the byte at `pos++`. -/
def growing_buffer.push_back (b : growing_buffer) (c : Nat) : growing_buffer :=
  if b.data.length = b.size then
    ⟨b.data ++ [c], b.size * 8, b.allocs + 1⟩
  else
    ⟨b.data ++ [c], b.size, b.allocs⟩

/-- Sequential appends, as in the growing-buffer round-trip property. -/
def gbPushAll (bs : List Nat) (b : growing_buffer) : growing_buffer :=
  bs.foldl growing_buffer.push_back b

/-- Embeds `external_buffer` (`buffers.h`): caller-provided storage of
fixed capacity.  Only the written prefix is modelled; `pos` is
`data.length`. -/
structure external_buffer where
  data : List Nat
  size : Nat
deriving DecidableEq

/-- Embeds `external_buffer::push_back`: at capacity it throws
`std::out_of_range` instead of growing, otherwise writes at `pos++`. -/
def external_buffer.push_back (b : external_buffer) (c : Nat) : Except Err external_buffer :=
  if b.data.length = b.size then .error .outOfRange
  else .ok ⟨b.data ++ [c], b.size⟩

/-- Sequential appends into an `external_buffer`, stopping at the first
overflow. -/
def extPushAll : List Nat → external_buffer → Except Err external_buffer
  | [], b => .ok b
  | c :: r, b =>
    match b.push_back c with
    | .ok b' => extPushAll r b'
    | .error e => .error e

/-- Embeds the one-character `fromHex` (`json_parsing.h`): digit value of a
hex character, or a parse error naming the offending character (the
branches test identically whether `char` is signed or unsigned, since all
hex digits are below 128). -/
def fromHex1 (c : Nat) : Except Err Nat :=
  if 48 ≤ c ∧ c ≤ 57 then .ok (c - 48)
  else if 97 ≤ c ∧ c ≤ 102 then .ok (c - 97 + 10)
  else if 65 ≤ c ∧ c ≤ 70 then .ok (c - 65 + 10)
  else .error (.parse ("invalid hexadecimal: " ++ (Char.ofNat c).toString))

/-- One iteration of the `fromHex<T>` loop body
`code = (code << 4) | fromHex(*context++, context)`, with `uint16_t`
arithmetic (`% 65536`). -/
def fromHexStep (acc : Nat) (c : Parse_Context) : PRes Nat :=
  match c.advance with
  | .error e => .error e
  | .ok (b, c') =>
    match fromHex1 b with
    | .ok d => .ok ((acc * 16 + d) % 65536, c')
    | .error e => .error (e, c')

/-- Embeds `fromHex<uint16_t>` (`json_parsing.h`): reads
`2 * sizeof(uint16_t) = 4` hex characters, accumulating the code unit. -/
def fromHex16 (c0 : Parse_Context) : PRes Nat :=
  match fromHexStep 0 c0 with
  | .error e => .error e
  | .ok (a1, c1) =>
    match fromHexStep a1 c1 with
    | .error e => .error e
    | .ok (a2, c2) =>
      match fromHexStep a2 c2 with
      | .error e => .error e
      | .ok (a3, c3) => fromHexStep a3 c3

/-- The `switch (c)` over escape characters in `readJsonString`: the byte
delivered to the plain-byte callback, or `none` for the `'u'` case and the
`default:` branch (which are handled separately). -/
def escDecode (c : Nat) : Option Nat :=
  if c = 116 then some 9
  else if c = 110 then some 10
  else if c = 114 then some 13
  else if c = 102 then some 12
  else if c = 98 then some 8
  else if c = 47 then some 47
  else if c = 92 then some 92
  else if c = 34 then some 34
  else none

/-- Embeds the `while (!context.match_literal('"'))` loop of
`readJsonString` (`json_parsing.h`), polymorphic in the two callbacks and
their captured environment `α`, exactly as the C++ template is polymorphic
in `f_char` and `f_char16t`.  Callbacks may throw (`Except Err`); the loop
attaches the cursor position of the throw.  The loop is fuelled: each C++
iteration costs one unit of fuel, and running out is the artificial
`Err.fuel`. -/
def readJsonStringLoop (pbB pbU : Nat → α → Except Err α) : Nat → Parse_Context → α → PRes α
  | 0, c, _ => .error (.fuel, c)
  | fuel + 1, c0, a =>
    match c0.matchChar 34 with
    | (true, c1) => .ok (a, c1)
    | (false, _) =>
      match c0.advance with
      | .error e => .error e
      | .ok (ch, c1) =>
        if ch ≠ 92 then
          match pbB ch a with
          | .error e => .error (e, c1)
          | .ok a' => readJsonStringLoop pbB pbU fuel c1 a'
        else
          match c1.advance with
          | .error e => .error e
          | .ok (e2, c2) =>
            if e2 = 117 then
              match fromHex16 c2 with
              | .error e => .error e
              | .ok (u, c3) =>
                match pbU u a with
                | .error e => .error (e, c3)
                | .ok a' => readJsonStringLoop pbB pbU fuel c3 a'
            else
              match escDecode e2 with
              | some b =>
                match pbB b a with
                | .error e => .error (e, c2)
                | .ok a' => readJsonStringLoop pbB pbU fuel c2 a'
              | none =>
                .error (.parse ("invalid escape sequence: \\" ++ (Char.ofNat e2).toString), c2)

/-- Embeds `readJsonString` (`json_parsing.h`): skips whitespace, consumes
the opening quote (throwing if absent), then scans to the unescaped
closing quote, delivering plain bytes to `pbB` and `\uXXXX` code units to
`pbU`. -/
def readJsonString (pbB pbU : Nat → α → Except Err α) (fuel : Nat) (c : Parse_Context) (a : α) : PRes α :=
  match (skipJsonWhitespace c).expectChar 34 with
  | .error e => .error e
  | .ok c1 => readJsonStringLoop pbB pbU fuel c1 a

/-- The implicit conversion from (signed) `char` to `uint16_t` performed
when `readJsonStringAscii` passes the same `uint16_t` lambda as both
callbacks of `readJsonString`: bytes at and above 128 sign-extend. -/
def byteToU16 (c : Nat) : Nat := if c < 128 then c else 65280 + c

/-- The lambda of `expectJsonStringAscii` (`json_parsing.cc`): a code unit
above 127 raises "non-ASCII string character", otherwise the unit is
appended to the growing buffer (truncated back to a byte by
`push_back(char)`). -/
def asciiCB (u : Nat) (b : growing_buffer) : Except Err growing_buffer :=
  if 127 < u then .error (.parse "non-ASCII string character")
  else .ok (b.push_back (u % 256))

/-- Embeds `expectJsonStringAscii(Parse_Context&)` (`json_parsing.cc`):
scans a JSON string into a fresh `growing_buffer` through `asciiCB`
(used, via `readJsonStringAscii`, as both the byte and the UTF-16
callback) and returns the accumulated bytes. -/
def expectJsonStringAscii (fuel : Nat) (c : Parse_Context) : PRes (List Nat) :=
  match readJsonString (fun ch b => asciiCB (byteToU16 ch) b) asciiCB fuel c growing_buffer.mk0 with
  | .ok (b, c') => .ok (b.data, c')
  | .error e => .error e

/-- The lambda of `expectJsonStringAsciiPermissive` (`json_parsing.cc`): a
code unit above 127 is replaced by the caller-supplied byte instead of
raising. -/
def permissiveCB (r : Nat) (u : Nat) (b : growing_buffer) : Except Err growing_buffer :=
  .ok (b.push_back ((if 127 < u then byteToU16 r else u) % 256))

/-- Embeds `expectJsonStringAsciiPermissive` (`json_parsing.cc`). -/
def expectJsonStringAsciiPermissive (fuel : Nat) (r : Nat) (c : Parse_Context) : PRes (List Nat) :=
  match readJsonString (fun ch b => permissiveCB r (byteToU16 ch) b) (permissiveCB r) fuel c growing_buffer.mk0 with
  | .ok (b, c') => .ok (b.data, c')
  | .error e => .error e

/-- The lambda of the buffer-bounded `expectJsonStringAscii`
(`json_parsing.cc`): as `asciiCB`, but writing into the caller's
`external_buffer`, whose `push_back` may throw `std::out_of_range`. -/
def extCB (u : Nat) (b : external_buffer) : Except Err external_buffer :=
  if 127 < u then .error (.parse "non-ASCII string character")
  else b.push_back (u % 256)

/-- Embeds `expectJsonStringAscii(Parse_Context&, char*, size_t)`
(`json_parsing.cc`): scans into an `external_buffer` of the given
capacity, appends a terminating NUL, and returns `pos`; a
`std::out_of_range` anywhere in the `try` block (scan or terminator) is
caught and turned into the sentinel `-1`; every other exception
propagates. -/
def expectJsonStringAsciiBuf (fuel maxLength : Nat) (c : Parse_Context) : PRes Int :=
  match readJsonString (fun ch b => extCB (byteToU16 ch) b) extCB fuel c ⟨[], maxLength⟩ with
  | .ok (b, c') =>
    match b.push_back 0 with
    | .ok b' => .ok ((b'.data.length : Int), c')
    | .error _ => .ok (-1, c')
  | .error (.outOfRange, cm) => .ok (-1, cm)
  | .error e => .error e

/-- Embeds `matchJsonString` (`json_parsing.cc`): runs
`expectJsonStringAscii` under a `Revert_Token`; on success the token is
committed (`ignore`) and `str` receives the scanned bytes; any exception
is caught, the token's rollback restores the cursor to the offset it held
on entry, and `str` keeps its previous value.  The function never
raises. -/
def matchJsonString (fuel : Nat) (c : Parse_Context) (str : List Nat) : (Bool × List Nat) × Parse_Context :=
  match expectJsonStringAscii fuel c with
  | .ok (s, c') => ((true, s), c')
  | .error _ => ((false, str), c)

/-- The bytes of the literal `null`. -/
def nullBytes : List Nat := [110, 117, 108, 108]

/-- Embeds `matchJsonNull` (`json_parsing.cc`): skips whitespace, then
probes for the literal `null`.  The function never raises. -/
def matchJsonNull (c : Parse_Context) : Bool × Parse_Context :=
  (skipJsonWhitespace c).matchLit nullBytes

/-- Embeds the `for (int i = 0; ; ++i)` loop of `expectJsonArray`
(`json_parsing.cc`), polymorphic in the visitor's captured environment
`α`. -/
def expectJsonArrayLoop (onEntry : Nat → Parse_Context → α → Except (Err × Parse_Context) (Parse_Context × α)) :
    Nat → Nat → Parse_Context → α → Except (Err × Parse_Context) (Parse_Context × α)
  | 0, _, c, _ => .error (.fuel, c)
  | fuel + 1, i, c0, a =>
    let c1 := skipJsonWhitespace c0
    match onEntry i c1 a with
    | .error e => .error e
    | .ok (c2, a') =>
      let c3 := skipJsonWhitespace c2
      match c3.matchChar 44 with
      | (true, c4) => expectJsonArrayLoop onEntry fuel (i + 1) c4 a'
      | (false, c4) =>
        let c5 := skipJsonWhitespace c4
        match c5.expectChar 93 with
        | .ok c6 => .ok (c6, a')
        | .error e => .error e

/-- Embeds `expectJsonArray` (`json_parsing.cc`): a literal `null` is an
empty array; otherwise `[`, the comma-separated entries (each index handed
to the visitor with the cursor at the value), and `]`. -/
def expectJsonArray (onEntry : Nat → Parse_Context → α → Except (Err × Parse_Context) (Parse_Context × α))
    (fuel : Nat) (c : Parse_Context) (a : α) : Except (Err × Parse_Context) (Parse_Context × α) :=
  let c0 := skipJsonWhitespace c
  match c0.matchLit nullBytes with
  | (true, c1) => .ok (c1, a)
  | (false, c1) =>
    match c1.expectChar 91 with
    | .error e => .error e
    | .ok c2 =>
      let c3 := skipJsonWhitespace c2
      match c3.matchChar 93 with
      | (true, c4) => .ok (c4, a)
      | (false, c4) => expectJsonArrayLoop onEntry fuel 0 c4 a

/-- Embeds the `for (;;)` loop of `expectJsonObject` (`json_parsing.cc`):
key (via `expectJsonStringAscii`), `:`, visitor, and a comma to
continue. -/
def expectJsonObjectLoop (onEntry : List Nat → Parse_Context → α → Except (Err × Parse_Context) (Parse_Context × α)) :
    Nat → Parse_Context → α → Except (Err × Parse_Context) (Parse_Context × α)
  | 0, c, _ => .error (.fuel, c)
  | fuel + 1, c0, a =>
    let c1 := skipJsonWhitespace c0
    match expectJsonStringAscii (fuel + 1) c1 with
    | .error e => .error e
    | .ok (key, c2) =>
      let c3 := skipJsonWhitespace c2
      match c3.expectChar 58 with
      | .error e => .error e
      | .ok c4 =>
        let c5 := skipJsonWhitespace c4
        match onEntry key c5 a with
        | .error e => .error e
        | .ok (c6, a') =>
          let c7 := skipJsonWhitespace c6
          match c7.matchChar 44 with
          | (true, c8) => expectJsonObjectLoop onEntry fuel c8 a'
          | (false, c8) =>
            let c9 := skipJsonWhitespace c8
            match c9.expectChar 125 with
            | .ok c10 => .ok (c10, a')
            | .error e => .error e

/-- Embeds `expectJsonObject` (`json_parsing.cc`): a literal `null` is an
empty object; otherwise `{`, the comma-separated key/value entries (each
key handed to the visitor with the cursor at the value), and `}`. -/
def expectJsonObject (onEntry : List Nat → Parse_Context → α → Except (Err × Parse_Context) (Parse_Context × α))
    (fuel : Nat) (c : Parse_Context) (a : α) : Except (Err × Parse_Context) (Parse_Context × α) :=
  let c0 := skipJsonWhitespace c
  match c0.matchLit nullBytes with
  | (true, c1) => .ok (c1, a)
  | (false, c1) =>
    match c1.expectChar 123 with
    | .error e => .error e
    | .ok c2 =>
      let c3 := skipJsonWhitespace c2
      match c3.matchChar 125 with
      | (true, c4) => .ok (c4, a)
      | (false, c4) => expectJsonObjectLoop onEntry fuel c4 a

/-- Embeds the `for (;;)` loop of `matchJsonObject` (`json_parsing.cc`):
returns `false` (without restoring the cursor) when `:` or the closing
brace fails to match or when the visitor aborts; exceptions from
`expectJsonStringAscii` propagate. -/
def matchJsonObjectLoop (onEntry : List Nat → Parse_Context → α → Except (Err × Parse_Context) ((Bool × Parse_Context) × α)) :
    Nat → Parse_Context → α → Except (Err × Parse_Context) ((Bool × Parse_Context) × α)
  | 0, c, _ => .error (.fuel, c)
  | fuel + 1, c0, a =>
    let c1 := skipJsonWhitespace c0
    match expectJsonStringAscii (fuel + 1) c1 with
    | .error e => .error e
    | .ok (key, c2) =>
      let c3 := skipJsonWhitespace c2
      match c3.matchChar 58 with
      | (false, c4) => .ok ((false, c4), a)
      | (true, c4) =>
        let c5 := skipJsonWhitespace c4
        match onEntry key c5 a with
        | .error e => .error e
        | .ok ((false, c6), a') => .ok ((false, c6), a')
        | .ok ((true, c6), a') =>
          let c7 := skipJsonWhitespace c6
          match c7.matchChar 44 with
          | (true, c8) => matchJsonObjectLoop onEntry fuel c8 a'
          | (false, c8) =>
            let c9 := skipJsonWhitespace c8
            match c9.matchChar 125 with
            | (true, c10) => .ok ((true, c10), a')
            | (false, c10) => .ok ((false, c10), a')

/-- Embeds `matchJsonObject` (`json_parsing.cc`): the probing counterpart
of `expectJsonObject`; `null` counts as a match, a missing `{` returns
`false`, and the entry loop is `matchJsonObjectLoop`. -/
def matchJsonObject (onEntry : List Nat → Parse_Context → α → Except (Err × Parse_Context) ((Bool × Parse_Context) × α))
    (fuel : Nat) (c : Parse_Context) (a : α) : Except (Err × Parse_Context) ((Bool × Parse_Context) × α) :=
  let c0 := skipJsonWhitespace c
  match c0.matchLit nullBytes with
  | (true, c1) => .ok ((true, c1), a)
  | (false, c1) =>
    match c1.matchChar 123 with
    | (false, c2) => .ok ((false, c2), a)
    | (true, c2) =>
      let c3 := skipJsonWhitespace c2
      match c3.matchChar 125 with
      | (true, c4) => .ok ((true, c4), a)
      | (false, c4) => matchJsonObjectLoop onEntry fuel c4 a

/-- A delivery made by `readJsonString`: a plain byte to the first
callback, or a `\uXXXX` code unit to the second. -/
inductive JsonTok where
  | byte (c : Nat)
  | u16 (u : Nat)
deriving DecidableEq

/-- Collecting byte callback: records the delivery, never throws. -/
def collectB (c : Nat) (l : List JsonTok) : Except Err (List JsonTok) := .ok (l ++ [.byte c])

/-- Collecting UTF-16 callback: records the delivery, never throws. -/
def collectU (u : Nat) (l : List JsonTok) : Except Err (List JsonTok) := .ok (l ++ [.u16 u])

/-- The canonical instantiation of `readJsonString`: the list of
deliveries the scan makes, in order. -/
def scanTokens (fuel : Nat) (c : Parse_Context) : PRes (List JsonTok) :=
  readJsonString collectB collectU fuel c []

/-- Replays a list of deliveries against an arbitrary callback pair:
the sequence of callback invocations `readJsonString` makes, detached
from the scan itself. -/
def foldTokens (pbB pbU : Nat → α → Except Err α) : List JsonTok → α → Except Err α
  | [], a => .ok a
  | .byte c :: r, a =>
    match pbB c a with
    | .ok a' => foldTokens pbB pbU r a'
    | .error e => .error e
  | .u16 u :: r, a =>
    match pbU u a with
    | .ok a' => foldTokens pbB pbU r a'
    | .error e => .error e

/-- The `uint16_t` value the shared ASCII lambda receives for a delivery:
plain bytes go through the `char → uint16_t` conversion, code units are
passed as they are. -/
def tokU16 : JsonTok → Nat
  | .byte c => byteToU16 c
  | .u16 u => u

/-- The bytes of the traversal test input `{"a": 1, "b": [2, 3]}`. -/
def c4Input : List Nat :=
  [123, 34, 97, 34, 58, 32, 49, 44, 32, 34, 98, 34, 58, 32, 91, 50, 44, 32, 51, 93, 125]

/-- The visitor handed to the nested `expectJsonArray` call of the
traversal test: records `(index, offset at the value)` in the second log
and consumes the one-digit value. -/
def c4ArrayVisitor (i : Nat) (c : Parse_Context) (a : List (List Nat × Nat) × List (Nat × Nat)) :
    Except (Err × Parse_Context) (Parse_Context × (List (List Nat × Nat) × List (Nat × Nat))) :=
  match c.advance with
  | .ok (_, c') => .ok (c', (a.1, a.2 ++ [(i, c.ofs)]))
  | .error e => .error e

/-- The visitor handed to `expectJsonObject` in the traversal test:
records `(key, offset at the value)` in the first log, then consumes the
value — the one-digit literal for key `"a"`, a nested `expectJsonArray`
with `c4ArrayVisitor` for the other key. -/
def c4ObjectVisitor (key : List Nat) (c : Parse_Context) (a : List (List Nat × Nat) × List (Nat × Nat)) :
    Except (Err × Parse_Context) (Parse_Context × (List (List Nat × Nat) × List (Nat × Nat))) :=
  let a' := (a.1 ++ [(key, c.ofs)], a.2)
  if key = [97] then
    match c.advance with
    | .ok (_, c') => .ok (c', a')
    | .error e => .error e
  else
    expectJsonArray c4ArrayVisitor 5 c a'









theorem rest_mkCtx (l : List Nat) : (mkCtx l).rest = l := by
  simp [mkCtx, Parse_Context.rest]

theorem rest_ofs_add (c : Parse_Context) (k : Nat) :
    Parse_Context.rest ⟨c.input, c.ofs + k⟩ = c.rest.drop k := by
  show c.input.drop (c.ofs + k) = (c.input.drop c.ofs).drop k
  rw [List.drop_drop, Nat.add_comm]

theorem rest_cons_bump (c : Parse_Context) (x : Nat) (r : List Nat) (h : c.rest = x :: r) :
    Parse_Context.rest ⟨c.input, c.ofs + 1⟩ = r := by
  rw [rest_ofs_add, h]
  rfl

theorem matchChar_cons_self (c : Parse_Context) (x : Nat) (r : List Nat) (h : c.rest = x :: r) :
    c.matchChar x = (true, ⟨c.input, c.ofs + 1⟩) := by
  simp [Parse_Context.matchChar, h]

theorem matchChar_cons_ne (c : Parse_Context) (x ch : Nat) (r : List Nat)
    (h : c.rest = x :: r) (hne : x ≠ ch) :
    c.matchChar ch = (false, c) := by
  simp [Parse_Context.matchChar, h, hne]

theorem matchChar_nil (c : Parse_Context) (ch : Nat) (h : c.rest = []) :
    c.matchChar ch = (false, c) := by
  simp [Parse_Context.matchChar, h]

theorem advance_cons (c : Parse_Context) (x : Nat) (r : List Nat) (h : c.rest = x :: r) :
    c.advance = .ok (x, ⟨c.input, c.ofs + 1⟩) := by
  simp [Parse_Context.advance, h]

theorem expectChar_cons_self (c : Parse_Context) (x : Nat) (r : List Nat) (h : c.rest = x :: r) :
    c.expectChar x = .ok ⟨c.input, c.ofs + 1⟩ := by
  simp [Parse_Context.expectChar, h]

theorem litMatches_append (lit r : List Nat) : litMatches lit (lit ++ r) = true := by
  induction lit with
  | nil => rfl
  | cons x xs ih => simpa [litMatches] using ih

theorem matchLit_of_append (c : Parse_Context) (lit post : List Nat) (h : c.rest = lit ++ post) :
    c.matchLit lit = (true, ⟨c.input, c.ofs + lit.length⟩) := by
  simp [Parse_Context.matchLit, h, litMatches_append]

theorem wsLen_cons_not (x : Nat) (r : List Nat) (h : isJsonWs x = false) :
    wsLen (x :: r) = 0 := by
  simp [wsLen, h]

theorem wsLen_ws_append (ws r : List Nat) (h : ∀ x ∈ ws, isJsonWs x = true) :
    wsLen (ws ++ r) = ws.length + wsLen r := by
  induction ws with
  | nil => simp
  | cons x xs ih =>
    have hx : isJsonWs x = true := h x (by simp)
    have ih' := ih (fun y hy => h y (by simp [hy]))
    simp [wsLen, hx, ih']
    omega

theorem skip_of_head_not_ws (c : Parse_Context) (x : Nat) (r : List Nat)
    (h : c.rest = x :: r) (hx : isJsonWs x = false) :
    skipJsonWhitespace c = c := by
  cases c with
  | mk input ofs =>
    simp only [Parse_Context.rest] at h
    simp [skipJsonWhitespace, Parse_Context.rest, h, wsLen, hx]

theorem skip_of_rest_nil (c : Parse_Context) (h : c.rest = []) :
    skipJsonWhitespace c = c := by
  cases c with
  | mk input ofs => simp [skipJsonWhitespace, h, wsLen]

theorem drop_append_len (l t : List Nat) : (l ++ t).drop l.length = t := by
  induction l with
  | nil => simp
  | cons x xs ih => simp [ih]

theorem escCode_none (c : Nat) (h : ¬ escapableB c) : escCode c = none := by
  have h' : ¬ (c = 9 ∨ c = 10 ∨ c = 13 ∨ c = 12 ∨ c = 8 ∨ (32 ≤ c ∧ c ≤ 126)) := h
  unfold escCode
  split_ifs with h1 h2 h3 h4 h5 h6 <;> first | rfl | (exfalso; omega)

theorem plain_false_of_not_escapable (c : Nat) (h : ¬ escapableB c) :
    ¬ (32 ≤ c ∧ c < 127 ∧ c ≠ 34 ∧ c ≠ 92) := by
  have h' : ¬ (c = 9 ∨ c = 10 ∨ c = 13 ∨ c = 12 ∨ c = 8 ∨ (32 ≤ c ∧ c ≤ 126)) := h
  omega

theorem jsonEscapeCore_ok (s : List Nat) : ∀ pos sz, (∀ c ∈ s, escapableB c) →
    pos + 2 * s.length + 4 ≤ sz → jsonEscapeCore s pos sz = .ok (escBody s) := by
  induction s with
  | nil => intro pos sz _ _; rfl
  | cons c r ih =>
    intro pos sz hall hsz
    have hc : escapableB c := hall c (by simp)
    simp only [List.length_cons] at hsz
    have hcap : ¬ (sz ≤ pos + 4) := by omega
    unfold jsonEscapeCore
    rw [if_neg hcap]
    by_cases hpl : 32 ≤ c ∧ c < 127 ∧ c ≠ 34 ∧ c ≠ 92
    · rw [if_pos hpl, ih (pos + 1) sz (fun x hx => hall x (by simp [hx])) (by omega)]
      simp [escBody, escByte, hpl]
    · have hcase : c = 9 ∨ c = 10 ∨ c = 13 ∨ c = 12 ∨ c = 8 ∨ c = 34 ∨ c = 92 := by
        unfold escapableB at hc
        omega
      have ihr := ih (pos + 2) sz (fun x hx => hall x (by simp [hx])) (by omega)
      rw [if_neg hpl]
      rcases hcase with h | h | h | h | h | h | h <;> subst h <;>
        simp [escCode, escByte, escBody, ihr]

theorem jsonEscapeCore_err (s1 : List Nat) : ∀ c s2 pos sz, (∀ x ∈ s1, escapableB x) →
    ¬ escapableB c → pos + 2 * s1.length + 5 ≤ sz →
    jsonEscapeCore (s1 ++ c :: s2) pos sz = .error .invalidChar := by
  induction s1 with
  | nil =>
    intro c s2 pos sz _ hc hsz
    simp only [List.length_nil] at hsz
    show jsonEscapeCore (c :: s2) pos sz = .error .invalidChar
    unfold jsonEscapeCore
    rw [if_neg (by omega : ¬ (sz ≤ pos + 4))]
    rw [if_neg (plain_false_of_not_escapable c hc), escCode_none c hc]
  | cons x xs ih =>
    intro c s2 pos sz hall hc hsz
    have hx : escapableB x := hall x (by simp)
    simp only [List.length_cons] at hsz
    have ihxs : ∀ pos', pos' + 2 * xs.length + 5 ≤ sz →
        jsonEscapeCore (xs ++ c :: s2) pos' sz = .error .invalidChar :=
      fun pos' h' => ih c s2 pos' sz (fun y hy => hall y (by simp [hy])) hc h'
    show jsonEscapeCore (x :: (xs ++ c :: s2)) pos sz = .error .invalidChar
    unfold jsonEscapeCore
    rw [if_neg (by omega : ¬ (sz ≤ pos + 4))]
    by_cases hpl : 32 ≤ x ∧ x < 127 ∧ x ≠ 34 ∧ x ≠ 92
    · rw [if_pos hpl, ihxs (pos + 1) (by omega)]
    · have hcase : x = 9 ∨ x = 10 ∨ x = 13 ∨ x = 12 ∨ x = 8 ∨ x = 34 ∨ x = 92 := by
        have hx' : x = 9 ∨ x = 10 ∨ x = 13 ∨ x = 12 ∨ x = 8 ∨ (32 ≤ x ∧ x ≤ 126) := hx
        push_neg at hpl
        omega
      have ihr := ihxs (pos + 2) (by omega)
      rw [if_neg hpl]
      rcases hcase with h | h | h | h | h | h | h <;> subst h <;>
        simp [escCode, ihr]

theorem exists_first_bad (s : List Nat) (h : ¬ ∀ c ∈ s, escapableB c) :
    ∃ s1 c s2, s = s1 ++ c :: s2 ∧ (∀ x ∈ s1, escapableB x) ∧ ¬ escapableB c := by
  induction s with
  | nil => simp at h
  | cons x xs ih =>
    by_cases hx : escapableB x
    · have hxs : ¬ ∀ c ∈ xs, escapableB c := by
        intro hall
        exact h (by
          intro c hc
          rcases List.mem_cons.mp hc with h' | h'
          · exact h' ▸ hx
          · exact hall c h')
      obtain ⟨s1, c, s2, heq, hall1, hc⟩ := ih hxs
      exact ⟨x :: s1, c, s2, by simp [heq], by
        intro y hy
        rcases List.mem_cons.mp hy with h' | h'
        · exact h' ▸ hx
        · exact hall1 y h', hc⟩
    · exact ⟨[], x, xs, rfl, by simp, hx⟩

/-- C10: `jsonEscape` accepts exactly the escapable bytes — printable
ASCII `0x20`–`0x7E` plus tab, newline, CR, form-feed and backspace.  On an
all-escapable string it succeeds (producing exactly the per-byte escapes,
so it never substitutes), and on any string containing any other byte — in
particular DEL `0x7F` and every byte at or above `128`, not only control
bytes — it raises the "invalid character in Json string" exception. -/
theorem c10_jsonEscape_exact_domain (s : List Nat) :
    (jsonEscape s = .ok (escBody s) ↔ ∀ c ∈ s, escapableB c) ∧
    (jsonEscape s = .error EscErr.invalidChar ↔ ¬ ∀ c ∈ s, escapableB c) := by
  by_cases hall : ∀ c ∈ s, escapableB c
  · have hok : jsonEscape s = .ok (escBody s) :=
      jsonEscapeCore_ok s 0 (4 * s.length + 4) hall (by omega)
    exact ⟨⟨fun _ => hall, fun _ => hok⟩,
      ⟨fun h => by rw [hok] at h; exact Except.noConfusion h, fun h => absurd hall h⟩⟩
  · obtain ⟨s1, c, s2, hs, h1, hc⟩ := exists_first_bad s hall
    have herr : jsonEscape s = .error .invalidChar := by
      unfold jsonEscape
      rw [hs]
      exact jsonEscapeCore_err s1 c s2 0 _ h1 hc (by simp [hs]; omega)
    constructor
    · simp [herr, hall]
    · simp [herr, hall]

/-- C2 counterexample: the claim says `jsonEscape` backslash-escapes the
slash, but on the all-escapable one-byte string `"/"` (byte 47) the
escaper passes the slash through unchanged — the `case '/'` of its switch
is unreachable because a slash already satisfies the printable fast
path. -/
theorem c2_slash_unescaped_cex :
    jsonEscape [47] = .ok [47] ∧ jsonEscape [47] ≠ .ok [92, 47] ∧ escapableB 47 := by
  refine ⟨rfl, ?_, by decide⟩
  intro h
  rw [show jsonEscape [47] = .ok [47] from rfl] at h
  simp at h

/-- C2 amended: on strings whose bytes are all escapable, `jsonEscape`
maps tab, newline, CR, form-feed and backspace to their two-character
backslash escapes, backslash-escapes quote and backslash, and passes every
other printable ASCII byte — including the slash — through unchanged; on a
string containing any non-escapable control byte it raises the hard
encoding error. -/
theorem c2_jsonEscape_amended :
    (escByte 9 = [92, 116] ∧ escByte 10 = [92, 110] ∧ escByte 13 = [92, 114] ∧
      escByte 12 = [92, 102] ∧ escByte 8 = [92, 98] ∧
      escByte 34 = [92, 34] ∧ escByte 92 = [92, 92] ∧ escByte 47 = [47]) ∧
    (∀ c : Nat, 32 ≤ c → c ≤ 126 → c ≠ 34 → c ≠ 92 → escByte c = [c]) ∧
    (∀ s : List Nat, (∀ c ∈ s, escapableB c) → jsonEscape s = .ok (escBody s)) ∧
    (∀ s1 c s2, c < 32 → ¬ escapableB c → (∀ x ∈ s1, escapableB x) →
      jsonEscape (s1 ++ c :: s2) = .error EscErr.invalidChar) := by
  refine ⟨by decide, ?_, ?_, ?_⟩
  · intro c h1 h2 h3 h4
    simp [escByte, h1, h3, h4]
    omega
  · intro s hall
    exact jsonEscapeCore_ok s 0 (4 * s.length + 4) hall (by omega)
  · intro s1 c s2 _ hc hall
    exact jsonEscapeCore_err s1 c s2 0 _ hall hc (by simp; omega)

/-- Witness for the amended C2 at concrete inputs. -/
theorem c2_jsonEscape_amended_witness :
    escByte 65 = [65] ∧ jsonEscape [9, 47, 34] = .ok (escBody [9, 47, 34]) ∧
      jsonEscape ([] ++ 1 :: []) = .error EscErr.invalidChar :=
  ⟨c2_jsonEscape_amended.2.1 65 (by decide) (by decide) (by decide) (by decide),
   c2_jsonEscape_amended.2.2.1 [9, 47, 34] (by decide),
   c2_jsonEscape_amended.2.2.2 [] 1 [] (by decide) (by decide) (by decide)⟩

theorem gb_push_back_data (b : growing_buffer) (c : Nat) :
    (b.push_back c).data = b.data ++ [c] := by
  unfold growing_buffer.push_back
  split_ifs <;> rfl

theorem gbPushAll_data (bs : List Nat) : ∀ b : growing_buffer,
    (gbPushAll bs b).data = b.data ++ bs := by
  induction bs with
  | nil => intro b; simp [gbPushAll]
  | cons c r ih =>
    intro b
    show (gbPushAll r (b.push_back c)).data = b.data ++ c :: r
    rw [ih, gb_push_back_data]
    simp

theorem gbPushAll_no_realloc (bs : List Nat) : ∀ b : growing_buffer,
    b.data.length + bs.length ≤ b.size →
    gbPushAll bs b = ⟨b.data ++ bs, b.size, b.allocs⟩ := by
  induction bs with
  | nil => intro b h; cases b; simp [gbPushAll]
  | cons c r ih =>
    intro b h
    simp only [List.length_cons] at h
    have hne : b.data.length ≠ b.size := by omega
    show gbPushAll r (b.push_back c) = _
    rw [show b.push_back c = ⟨b.data ++ [c], b.size, b.allocs⟩ from by
      unfold growing_buffer.push_back; rw [if_neg hne]]
    rw [ih ⟨b.data ++ [c], b.size, b.allocs⟩ (by simp; omega)]
    simp

theorem gbPushAll_append (bs1 bs2 : List Nat) (b : growing_buffer) :
    gbPushAll (bs1 ++ bs2) b = gbPushAll bs2 (gbPushAll bs1 b) := by
  simp [gbPushAll]

/-- C7: appending N bytes to a fresh `growing_buffer` and extracting the
contents yields exactly those N bytes in order, for every N — in
particular below, at, and above the 4096-byte inline threshold; the buffer
starts on the inline storage of 4096 bytes with no heap allocation, stays
there for up to 4096 bytes, performs its first heap allocation exactly on
the first overflowing append, and every reallocation multiplies the
capacity by 8 (hence by at least two). -/
theorem c7_growing_buffer :
    (∀ bs : List Nat, (gbPushAll bs growing_buffer.mk0).data = bs) ∧
    growing_buffer.mk0.size = 4096 ∧ growing_buffer.mk0.allocs = 0 ∧
    (∀ bs : List Nat, bs.length ≤ 4096 → gbPushAll bs growing_buffer.mk0 = ⟨bs, 4096, 0⟩) ∧
    (∀ (bs : List Nat) (c : Nat), bs.length = 4096 →
      gbPushAll (bs ++ [c]) growing_buffer.mk0 = ⟨bs ++ [c], 32768, 1⟩) ∧
    (∀ (b : growing_buffer) (c : Nat), b.data.length = b.size →
      (b.push_back c).size = 8 * b.size ∧ (b.push_back c).allocs = b.allocs + 1) ∧
    (∀ (b : growing_buffer) (c : Nat), b.data.length ≠ b.size →
      (b.push_back c).size = b.size ∧ (b.push_back c).allocs = b.allocs) := by
  refine ⟨?_, rfl, rfl, ?_, ?_, ?_, ?_⟩
  · intro bs
    rw [gbPushAll_data]
    rfl
  · intro bs h
    have := gbPushAll_no_realloc bs growing_buffer.mk0 (by simpa [growing_buffer.mk0])
    simpa [growing_buffer.mk0] using this
  · intro bs c h
    rw [gbPushAll_append]
    rw [gbPushAll_no_realloc bs growing_buffer.mk0 (by simp [growing_buffer.mk0, h])]
    show gbPushAll [c] _ = _
    simp only [growing_buffer.mk0, List.nil_append]
    show growing_buffer.push_back ⟨bs, 4096, 0⟩ c = _
    unfold growing_buffer.push_back
    rw [if_pos (by simpa using h)]
    simp only [growing_buffer.mk.injEq]
  · intro b c h
    unfold growing_buffer.push_back
    rw [if_pos h]
    exact ⟨by simp [Nat.mul_comm], rfl⟩
  · intro b c h
    unfold growing_buffer.push_back
    rw [if_neg h]
    exact ⟨rfl, rfl⟩

/-- Witness for C7 at concrete sizes 10, 4096 and 4097. -/
theorem c7_growing_buffer_witness :
    (gbPushAll (List.replicate 10 7) growing_buffer.mk0).data = List.replicate 10 7 ∧
    gbPushAll (List.replicate 4096 7) growing_buffer.mk0 = ⟨List.replicate 4096 7, 4096, 0⟩ ∧
    gbPushAll (List.replicate 4096 7 ++ [9]) growing_buffer.mk0 = ⟨List.replicate 4096 7 ++ [9], 32768, 1⟩ :=
  ⟨c7_growing_buffer.1 (List.replicate 10 7),
   c7_growing_buffer.2.2.2.1 (List.replicate 4096 7) (by rw [List.length_replicate]),
   c7_growing_buffer.2.2.2.2.1 (List.replicate 4096 7) 9 (by rw [List.length_replicate])⟩

theorem extPushAll_fill (bs : List Nat) : ∀ d cap, d.length + bs.length ≤ cap →
    extPushAll bs ⟨d, cap⟩ = .ok ⟨d ++ bs, cap⟩ := by
  induction bs with
  | nil => intro d cap h; simp [extPushAll]
  | cons c r ih =>
    intro d cap h
    simp only [List.length_cons] at h
    show (match external_buffer.push_back ⟨d, cap⟩ c with
      | .ok b' => extPushAll r b'
      | .error e => .error e) = _
    rw [show external_buffer.push_back ⟨d, cap⟩ c = .ok ⟨d ++ [c], cap⟩ from by
      unfold external_buffer.push_back
      exact if_neg (by simp at *; omega)]
    show extPushAll r ⟨d ++ [c], cap⟩ = .ok ⟨d ++ c :: r, cap⟩
    rw [ih (d ++ [c]) cap (by simp; omega)]
    simp

/-- C8: an `external_buffer` of capacity `cap` filled with `cap` bytes
accepts them all; one more `push_back` fails with `std::out_of_range`
(`Err.outOfRange`), a distinguishable kind from every parse error; the
failing call produces no new buffer, so the previously written bytes and
the position are unchanged and still readable. -/
theorem c8_external_buffer_overflow (cap : Nat) (bs : List Nat) (c : Nat) (h : bs.length = cap) :
    extPushAll bs ⟨[], cap⟩ = .ok ⟨bs, cap⟩ ∧
    external_buffer.push_back ⟨bs, cap⟩ c = .error Err.outOfRange ∧
    (∀ msg, Err.outOfRange ≠ Err.parse msg) ∧
    (⟨bs, cap⟩ : external_buffer).data = bs := by
  refine ⟨?_, ?_, fun msg hmsg => Err.noConfusion hmsg, rfl⟩
  · have := extPushAll_fill bs [] cap (by simp [h])
    simpa using this
  · unfold external_buffer.push_back
    exact if_pos (by simpa using h)

/-- Witness for C8 at capacity 2. -/
theorem c8_external_buffer_overflow_witness :
    extPushAll [5, 6] ⟨[], 2⟩ = .ok ⟨[5, 6], 2⟩ ∧
    external_buffer.push_back ⟨[5, 6], 2⟩ 7 = .error Err.outOfRange ∧
    (∀ msg, Err.outOfRange ≠ Err.parse msg) ∧
    (⟨[5, 6], 2⟩ : external_buffer).data = [5, 6] :=
  c8_external_buffer_overflow 2 [5, 6] 7 rfl

/-- C1 counterexample: `matchJsonObject` is not cursor-preserving on
failure.  On the input `{"a"1}` (no colon after the key) it returns
`false` with the cursor left at offset 4 — past the consumed `{"a"` —
although it held offset 0 before the call. -/
theorem c1_matchJsonObject_moves_cursor_cex :
    matchJsonObject (fun _ c a => .ok ((true, c), a)) 5 (mkCtx [123, 34, 97, 34, 49, 125]) () =
      .ok ((false, ⟨[123, 34, 97, 34, 49, 125], 4⟩), ()) ∧
    (⟨[123, 34, 97, 34, 49, 125], 4⟩ : Parse_Context).ofs ≠ (mkCtx [123, 34, 97, 34, 49, 125]).ofs :=
  ⟨rfl, by decide⟩

/-- C1 amended: only `matchJsonString` is fully non-destructive — it never
raises (it catches every exception of the scan) and, whenever it returns
`false`, the cursor and the output string are exactly as before the call.
`matchJsonNull` also never raises, but on failure it leaves the cursor
after the consumed leading whitespace rather than at the entry offset; and
`matchJsonObject` on failure can leave the cursor arbitrarily far into the
consumed input (and can propagate exceptions thrown while scanning a
key). -/
theorem c1_probe_rollback_amended :
    (∀ (fuel : Nat) (c : Parse_Context) (s0 : List Nat),
      (matchJsonString fuel c s0).1.1 = false →
      (matchJsonString fuel c s0).2 = c ∧ (matchJsonString fuel c s0).1.2 = s0) ∧
    (∀ c : Parse_Context, (matchJsonNull c).1 = false →
      (matchJsonNull c).2 = skipJsonWhitespace c) := by
  constructor
  · intro fuel c s0 h
    unfold matchJsonString at h ⊢
    cases hres : expectJsonStringAscii fuel c with
    | ok p =>
      obtain ⟨s, c'⟩ := p
      rw [hres] at h
      simp at h
    | error e =>
      exact ⟨rfl, rfl⟩
  · intro c h
    unfold matchJsonNull at h ⊢
    unfold Parse_Context.matchLit at h ⊢
    split_ifs at h ⊢ with hm
    rfl

/-- Witness for the amended C1: a failing `matchJsonString` on `"x"` and a
failing `matchJsonNull` on `" x"`. -/
theorem c1_probe_rollback_amended_witness :
    ((matchJsonString 5 (mkCtx [120]) []).2 = mkCtx [120] ∧
      (matchJsonString 5 (mkCtx [120]) []).1.2 = []) ∧
    (matchJsonNull (mkCtx [32, 120])).2 = skipJsonWhitespace (mkCtx [32, 120]) :=
  ⟨c1_probe_rollback_amended.1 5 (mkCtx [120]) [] rfl,
   c1_probe_rollback_amended.2 (mkCtx [32, 120]) rfl⟩

/-- C4: on `{"a": 1, "b": [2, 3]}`, `expectJsonObject` invokes its visitor
exactly twice and in order — key `"a"` with the cursor at offset 6 (the
value `1`) and key `"b"` with the cursor at offset 14 (the value
`[2, 3]`) — and the nested `expectJsonArray` call made by the visitor on
the second value invokes its visitor exactly twice, index 0 at offset 15
(value `2`) and index 1 at offset 18 (value `3`), in that order; the bytes
at those offsets are checked in the second conjunct. -/
theorem c4_object_array_traversal :
    expectJsonObject c4ObjectVisitor 5 (mkCtx c4Input) ([], []) =
      .ok (⟨c4Input, 21⟩, ([([97], 6), ([98], 14)], [(0, 15), (1, 18)])) ∧
    (c4Input.drop 6).head? = some 49 ∧ (c4Input.drop 14).head? = some 91 ∧
    (c4Input.drop 15).head? = some 50 ∧ (c4Input.drop 18).head? = some 51 :=
  ⟨rfl, by decide⟩

/-- C5: given a literal `null` after optional leading whitespace, both
`expectJsonArray` and `expectJsonObject` succeed, consume exactly the
whitespace and the `null`, and return the visitor environment untouched —
for an arbitrary visitor over an arbitrary environment, so the visitor is
invoked zero times. -/
theorem c5_null_as_empty {α : Type}
    (onEntryA : Nat → Parse_Context → α → Except (Err × Parse_Context) (Parse_Context × α))
    (onEntryO : List Nat → Parse_Context → α → Except (Err × Parse_Context) (Parse_Context × α))
    (fuel : Nat) (a : α) (ws rest : List Nat) (hws : ∀ x ∈ ws, isJsonWs x = true) :
    expectJsonArray onEntryA fuel (mkCtx (ws ++ (nullBytes ++ rest))) a =
      .ok (⟨ws ++ (nullBytes ++ rest), ws.length + 4⟩, a) ∧
    expectJsonObject onEntryO fuel (mkCtx (ws ++ (nullBytes ++ rest))) a =
      .ok (⟨ws ++ (nullBytes ++ rest), ws.length + 4⟩, a) := by
  have hwsl : wsLen (ws ++ (nullBytes ++ rest)) = ws.length := by
    rw [wsLen_ws_append ws _ hws,
      show nullBytes ++ rest = 110 :: ([117, 108, 108] ++ rest) from rfl,
      wsLen_cons_not _ _ (by decide)]
    exact Nat.add_zero _
  have hskip : skipJsonWhitespace (mkCtx (ws ++ (nullBytes ++ rest))) =
      ⟨ws ++ (nullBytes ++ rest), ws.length⟩ := by
    unfold skipJsonWhitespace
    rw [rest_mkCtx, hwsl]
    simp [mkCtx]
  have hrest2 : Parse_Context.rest ⟨ws ++ (nullBytes ++ rest), ws.length⟩ = nullBytes ++ rest :=
    drop_append_len ws _
  have hmatch : Parse_Context.matchLit nullBytes ⟨ws ++ (nullBytes ++ rest), ws.length⟩ =
      (true, ⟨ws ++ (nullBytes ++ rest), ws.length + 4⟩) := by
    have := matchLit_of_append ⟨ws ++ (nullBytes ++ rest), ws.length⟩ nullBytes rest hrest2
    simpa [nullBytes] using this
  constructor
  · unfold expectJsonArray
    rw [hskip]
    simp only [hmatch]
  · unfold expectJsonObject
    rw [hskip]
    simp only [hmatch]

/-- Witness for C5: a single space of leading whitespace before `null`. -/
theorem c5_null_as_empty_witness :
    expectJsonArray (fun _ c (a : Unit) => .ok (c, a)) 3 (mkCtx ([32] ++ (nullBytes ++ []))) () =
      .ok (⟨[32] ++ (nullBytes ++ []), 5⟩, ()) ∧
    expectJsonObject (fun _ c (a : Unit) => .ok (c, a)) 3 (mkCtx ([32] ++ (nullBytes ++ []))) () =
      .ok (⟨[32] ++ (nullBytes ++ []), 5⟩, ()) :=
  c5_null_as_empty _ _ 3 () [32] [] (by decide)

theorem genLoop_eof {α : Type} (pbB pbU : Nat → α → Except Err α) (f : Nat)
    (c : Parse_Context) (a : α) (h : c.rest = []) :
    readJsonStringLoop pbB pbU (f + 1) c a = .error (.parse "past end of stream", c) := by
  simp only [readJsonStringLoop, matchChar_nil c 34 h, Parse_Context.advance, h]

theorem genLoop_stop {α : Type} (pbB pbU : Nat → α → Except Err α) (f : Nat)
    (c : Parse_Context) (a : α) (r : List Nat) (h : c.rest = 34 :: r) :
    readJsonStringLoop pbB pbU (f + 1) c a = .ok (a, ⟨c.input, c.ofs + 1⟩) := by
  simp only [readJsonStringLoop, matchChar_cons_self c 34 r h]

theorem genLoop_plain_ok {α : Type} (pbB pbU : Nat → α → Except Err α) (f : Nat)
    (c : Parse_Context) (a a' : α) (ch : Nat) (r : List Nat)
    (h : c.rest = ch :: r) (h34 : ch ≠ 34) (h92 : ch ≠ 92) (hpb : pbB ch a = .ok a') :
    readJsonStringLoop pbB pbU (f + 1) c a =
      readJsonStringLoop pbB pbU f ⟨c.input, c.ofs + 1⟩ a' := by
  simp only [readJsonStringLoop, matchChar_cons_ne c ch 34 r h h34, advance_cons c ch r h,
    ne_eq, h92, not_false_iff, if_true, hpb]

theorem genLoop_plain_err {α : Type} (pbB pbU : Nat → α → Except Err α) (f : Nat)
    (c : Parse_Context) (a : α) (e : Err) (ch : Nat) (r : List Nat)
    (h : c.rest = ch :: r) (h34 : ch ≠ 34) (h92 : ch ≠ 92) (hpb : pbB ch a = .error e) :
    readJsonStringLoop pbB pbU (f + 1) c a = .error (e, ⟨c.input, c.ofs + 1⟩) := by
  simp only [readJsonStringLoop, matchChar_cons_ne c ch 34 r h h34, advance_cons c ch r h,
    ne_eq, h92, not_false_iff, if_true, hpb]

theorem genLoop_esc_eof {α : Type} (pbB pbU : Nat → α → Except Err α) (f : Nat)
    (c : Parse_Context) (a : α) (h : c.rest = [92]) :
    readJsonStringLoop pbB pbU (f + 1) c a =
      .error (.parse "past end of stream", ⟨c.input, c.ofs + 1⟩) := by
  simp only [readJsonStringLoop, matchChar_cons_ne c 92 34 [] h (by decide),
    advance_cons c 92 [] h, ne_eq, not_true, if_false,
    show Parse_Context.advance ⟨c.input, c.ofs + 1⟩ =
      .error (.parse "past end of stream", ⟨c.input, c.ofs + 1⟩) from by
        simp only [Parse_Context.advance, rest_cons_bump c 92 [] h]]

theorem genLoop_esc_ok {α : Type} (pbB pbU : Nat → α → Except Err α) (f : Nat)
    (c : Parse_Context) (a a' : α) (e2 b : Nat) (r : List Nat)
    (h : c.rest = 92 :: e2 :: r) (hu : e2 ≠ 117) (hdec : escDecode e2 = some b)
    (hpb : pbB b a = .ok a') :
    readJsonStringLoop pbB pbU (f + 1) c a =
      readJsonStringLoop pbB pbU f ⟨c.input, c.ofs + 1 + 1⟩ a' := by
  simp only [readJsonStringLoop, matchChar_cons_ne c 92 34 _ h (by decide),
    advance_cons c 92 _ h, ne_eq, not_true, if_false,
    advance_cons _ e2 r (rest_cons_bump c 92 _ h), hu, not_false_iff, if_true, hdec, hpb]

theorem genLoop_esc_err {α : Type} (pbB pbU : Nat → α → Except Err α) (f : Nat)
    (c : Parse_Context) (a : α) (e : Err) (e2 b : Nat) (r : List Nat)
    (h : c.rest = 92 :: e2 :: r) (hu : e2 ≠ 117) (hdec : escDecode e2 = some b)
    (hpb : pbB b a = .error e) :
    readJsonStringLoop pbB pbU (f + 1) c a = .error (e, ⟨c.input, c.ofs + 1 + 1⟩) := by
  simp only [readJsonStringLoop, matchChar_cons_ne c 92 34 _ h (by decide),
    advance_cons c 92 _ h, ne_eq, not_true, if_false,
    advance_cons _ e2 r (rest_cons_bump c 92 _ h), hu, not_false_iff, if_true, hdec, hpb]

theorem genLoop_esc_bad {α : Type} (pbB pbU : Nat → α → Except Err α) (f : Nat)
    (c : Parse_Context) (a : α) (e2 : Nat) (r : List Nat)
    (h : c.rest = 92 :: e2 :: r) (hu : e2 ≠ 117) (hdec : escDecode e2 = none) :
    readJsonStringLoop pbB pbU (f + 1) c a =
      .error (.parse ("invalid escape sequence: \\" ++ (Char.ofNat e2).toString),
        ⟨c.input, c.ofs + 1 + 1⟩) := by
  simp only [readJsonStringLoop, matchChar_cons_ne c 92 34 _ h (by decide),
    advance_cons c 92 _ h, ne_eq, not_true, if_false,
    advance_cons _ e2 r (rest_cons_bump c 92 _ h), hu, not_false_iff, if_true, hdec]

theorem genLoop_u_hex_err {α : Type} (pbB pbU : Nat → α → Except Err α) (f : Nat)
    (c : Parse_Context) (a : α) (r : List Nat) (ep : Err × Parse_Context)
    (h : c.rest = 92 :: 117 :: r)
    (hhex : fromHex16 ⟨c.input, c.ofs + 1 + 1⟩ = .error ep) :
    readJsonStringLoop pbB pbU (f + 1) c a = .error ep := by
  simp only [readJsonStringLoop, matchChar_cons_ne c 92 34 _ h (by decide),
    advance_cons c 92 _ h, ne_eq, not_true, if_false,
    advance_cons _ 117 r (rest_cons_bump c 92 _ h), hhex]
  simp

theorem genLoop_u_ok {α : Type} (pbB pbU : Nat → α → Except Err α) (f : Nat)
    (c c3 : Parse_Context) (a a' : α) (r : List Nat) (u : Nat)
    (h : c.rest = 92 :: 117 :: r)
    (hhex : fromHex16 ⟨c.input, c.ofs + 1 + 1⟩ = .ok (u, c3)) (hpb : pbU u a = .ok a') :
    readJsonStringLoop pbB pbU (f + 1) c a = readJsonStringLoop pbB pbU f c3 a' := by
  simp only [readJsonStringLoop, matchChar_cons_ne c 92 34 _ h (by decide),
    advance_cons c 92 _ h, ne_eq, not_true, if_false,
    advance_cons _ 117 r (rest_cons_bump c 92 _ h), hhex, hpb]
  simp

theorem genLoop_u_err {α : Type} (pbB pbU : Nat → α → Except Err α) (f : Nat)
    (c c3 : Parse_Context) (a : α) (e : Err) (r : List Nat) (u : Nat)
    (h : c.rest = 92 :: 117 :: r)
    (hhex : fromHex16 ⟨c.input, c.ofs + 1 + 1⟩ = .ok (u, c3)) (hpb : pbU u a = .error e) :
    readJsonStringLoop pbB pbU (f + 1) c a = .error (e, c3) := by
  simp only [readJsonStringLoop, matchChar_cons_ne c 92 34 _ h (by decide),
    advance_cons c 92 _ h, ne_eq, not_true, if_false,
    advance_cons _ 117 r (rest_cons_bump c 92 _ h), hhex, hpb]
  simp

theorem escByte_esc_spec (c : Nat) (hc : escapableB c)
    (hpl : ¬ (32 ≤ c ∧ c < 127 ∧ c ≠ 34 ∧ c ≠ 92)) :
    ∃ e, escByte c = [92, e] ∧ e ≠ 117 ∧ escDecode e = some c := by
  have hcase : c = 9 ∨ c = 10 ∨ c = 13 ∨ c = 12 ∨ c = 8 ∨ c = 34 ∨ c = 92 := by
    have hc' : c = 9 ∨ c = 10 ∨ c = 13 ∨ c = 12 ∨ c = 8 ∨ (32 ≤ c ∧ c ≤ 126) := hc
    push_neg at hpl
    omega
  rcases hcase with h | h | h | h | h | h | h <;> subst h
  · exact ⟨116, by decide, by decide, by decide⟩
  · exact ⟨110, by decide, by decide, by decide⟩
  · exact ⟨114, by decide, by decide, by decide⟩
  · exact ⟨102, by decide, by decide, by decide⟩
  · exact ⟨98, by decide, by decide, by decide⟩
  · exact ⟨34, by decide, by decide, by decide⟩
  · exact ⟨92, by decide, by decide, by decide⟩

theorem scanLoop_escBody (s : List Nat) :
    ∀ (post : List Nat) (ctx : Parse_Context) (acc : List JsonTok) (fuel : Nat),
    (∀ c ∈ s, escapableB c) →
    ctx.rest = escBody s ++ 34 :: post →
    s.length + 1 ≤ fuel →
    readJsonStringLoop collectB collectU fuel ctx acc =
      .ok (acc ++ s.map JsonTok.byte, ⟨ctx.input, ctx.ofs + ((escBody s).length + 1)⟩) := by
  induction s with
  | nil =>
    intro post ctx acc fuel _ hrest hfuel
    obtain ⟨f, rfl⟩ : ∃ f, fuel = f + 1 := ⟨fuel - 1, by omega⟩
    rw [genLoop_stop collectB collectU f ctx acc post (by simpa [escBody] using hrest)]
    simp [escBody]
  | cons c s ih =>
    intro post ctx acc fuel hall hrest hfuel
    have hc : escapableB c := hall c (by simp)
    obtain ⟨f, rfl⟩ : ∃ f, fuel = f + 1 := ⟨fuel - 1, by omega⟩
    have hfs : s.length + 1 ≤ f := by
      simp only [List.length_cons] at hfuel
      omega
    have hall' : ∀ x ∈ s, escapableB x := fun x hx => hall x (by simp [hx])
    have hupd : escBody (c :: s) = escByte c ++ escBody s := rfl
    by_cases hpl : 32 ≤ c ∧ c < 127 ∧ c ≠ 34 ∧ c ≠ 92
    · have hbyte : escByte c = [c] := by simp [escByte, hpl]
      have hr : ctx.rest = c :: (escBody s ++ 34 :: post) := by
        rw [hrest, hupd, hbyte]
        rfl
      rw [genLoop_plain_ok collectB collectU f ctx acc (acc ++ [JsonTok.byte c]) c _ hr
        hpl.2.2.1 hpl.2.2.2 rfl]
      rw [ih post ⟨ctx.input, ctx.ofs + 1⟩ (acc ++ [JsonTok.byte c]) f hall'
        (rest_cons_bump ctx c _ hr) hfs]
      simp only [hupd, hbyte, Parse_Context.mk.injEq, List.map_cons, List.append_assoc,
        List.singleton_append, List.length_append, List.length_cons, List.length_nil,
        Except.ok.injEq, Prod.mk.injEq, true_and]
      omega
    · obtain ⟨e, hesc, hu, hdec⟩ := escByte_esc_spec c hc hpl
      have hr : ctx.rest = 92 :: e :: (escBody s ++ 34 :: post) := by
        rw [hrest, hupd, hesc]
        rfl
      rw [genLoop_esc_ok collectB collectU f ctx acc (acc ++ [JsonTok.byte c]) e c _ hr hu hdec rfl]
      rw [ih post ⟨ctx.input, ctx.ofs + 1 + 1⟩ (acc ++ [JsonTok.byte c]) f hall'
        (rest_cons_bump ⟨ctx.input, ctx.ofs + 1⟩ e _ (rest_cons_bump ctx 92 _ hr)) hfs]
      simp only [hupd, hesc, Parse_Context.mk.injEq, List.map_cons, List.append_assoc,
        List.singleton_append, List.length_append, List.length_cons, List.length_nil,
        Except.ok.injEq, Prod.mk.injEq, true_and]
      omega

/-- C3: for any string of escapable bytes, scanning the quoted form
produced by `jsonEscape` with `readJsonString` (here its token-collecting
instantiation `scanTokens`) delivers exactly the original bytes, in order,
each through the plain-byte callback, and stops just after the closing
quote. -/
theorem c3_escape_roundtrip (s post : List Nat) (fuel : Nat)
    (hall : ∀ c ∈ s, escapableB c) (hfuel : s.length + 1 ≤ fuel) :
    jsonEscape s = .ok (escBody s) ∧
    scanTokens fuel (mkCtx (34 :: (escBody s ++ 34 :: post))) =
      .ok (s.map JsonTok.byte, ⟨34 :: (escBody s ++ 34 :: post), (escBody s).length + 2⟩) := by
  constructor
  · exact jsonEscapeCore_ok s 0 _ hall (by omega)
  · unfold scanTokens readJsonString
    have hrest : (mkCtx (34 :: (escBody s ++ 34 :: post))).rest =
        34 :: (escBody s ++ 34 :: post) := rest_mkCtx _
    rw [skip_of_head_not_ws _ 34 _ hrest (by decide), expectChar_cons_self _ 34 _ hrest]
    simp only [mkCtx]
    rw [scanLoop_escBody s post ⟨34 :: (escBody s ++ 34 :: post), 0 + 1⟩ [] fuel hall
      (by show (34 :: (escBody s ++ 34 :: post)).drop (0 + 1) = _; rfl) hfuel]
    simp only [List.nil_append, Parse_Context.mk.injEq, Except.ok.injEq, Prod.mk.injEq,
      true_and]
    omega

/-- Witness for C3 on the string `a<TAB>"` (bytes 97, 9, 34). -/
theorem c3_escape_roundtrip_witness :
    jsonEscape [97, 9, 34] = .ok (escBody [97, 9, 34]) ∧
    scanTokens 4 (mkCtx (34 :: (escBody [97, 9, 34] ++ 34 :: []))) =
      .ok ([97, 9, 34].map JsonTok.byte,
        ⟨34 :: (escBody [97, 9, 34] ++ 34 :: []), (escBody [97, 9, 34]).length + 2⟩) :=
  c3_escape_roundtrip [97, 9, 34] [] 4 (by decide) (by decide)

/-- The set of hex digits accepted by `fromHex1`. -/
def isHexDigit (c : Nat) : Prop :=
  (48 ≤ c ∧ c ≤ 57) ∨ (97 ≤ c ∧ c ≤ 102) ∨ (65 ≤ c ∧ c ≤ 70)

instance (c : Nat) : Decidable (isHexDigit c) := by
  unfold isHexDigit
  infer_instance

/-- The numeric value of a hex digit (0 for non-digits; only used under an
`isHexDigit` hypothesis). -/
def hexVal (c : Nat) : Nat :=
  if 48 ≤ c ∧ c ≤ 57 then c - 48
  else if 97 ≤ c ∧ c ≤ 102 then c - 97 + 10
  else if 65 ≤ c ∧ c ≤ 70 then c - 65 + 10
  else 0

theorem fromHex1_ok (c : Nat) (h : isHexDigit c) : fromHex1 c = .ok (hexVal c) := by
  have h' : (48 ≤ c ∧ c ≤ 57) ∨ (97 ≤ c ∧ c ≤ 102) ∨ (65 ≤ c ∧ c ≤ 70) := h
  unfold fromHex1 hexVal
  split_ifs <;> first | rfl | (exfalso; omega)

theorem hexVal_le (c : Nat) (h : isHexDigit c) : hexVal c ≤ 15 := by
  have h' : (48 ≤ c ∧ c ≤ 57) ∨ (97 ≤ c ∧ c ≤ 102) ∨ (65 ≤ c ∧ c ≤ 70) := h
  unfold hexVal
  split_ifs <;> omega

theorem fromHex1_err (c : Nat) (h : ¬ isHexDigit c) :
    fromHex1 c = .error (.parse ("invalid hexadecimal: " ++ (Char.ofNat c).toString)) := by
  have h' : ¬ ((48 ≤ c ∧ c ≤ 57) ∨ (97 ≤ c ∧ c ≤ 102) ∨ (65 ≤ c ∧ c ≤ 70)) := h
  unfold fromHex1
  split_ifs <;> first | rfl | (exfalso; omega)

theorem fromHexStep_ok (acc : Nat) (c : Parse_Context) (x : Nat) (r : List Nat)
    (hrest : c.rest = x :: r) (hx : isHexDigit x) (hacc : acc ≤ 4095) :
    fromHexStep acc c = .ok (acc * 16 + hexVal x, ⟨c.input, c.ofs + 1⟩) := by
  have hb := hexVal_le x hx
  simp only [fromHexStep, advance_cons c x r hrest, fromHex1_ok x hx,
    Nat.mod_eq_of_lt (by omega : acc * 16 + hexVal x < 65536)]

theorem fromHex16_ok (c : Parse_Context) (h1 h2 h3 h4 : Nat) (r : List Nat)
    (hrest : c.rest = h1 :: h2 :: h3 :: h4 :: r)
    (hh1 : isHexDigit h1) (hh2 : isHexDigit h2) (hh3 : isHexDigit h3) (hh4 : isHexDigit h4) :
    fromHex16 c =
      .ok (hexVal h1 * 4096 + hexVal h2 * 256 + hexVal h3 * 16 + hexVal h4,
        ⟨c.input, c.ofs + 1 + 1 + 1 + 1⟩) := by
  have b1 := hexVal_le h1 hh1
  have b2 := hexVal_le h2 hh2
  have b3 := hexVal_le h3 hh3
  have r1 : Parse_Context.rest ⟨c.input, c.ofs + 1⟩ = h2 :: h3 :: h4 :: r :=
    rest_cons_bump c h1 _ hrest
  have r2 : Parse_Context.rest ⟨c.input, c.ofs + 1 + 1⟩ = h3 :: h4 :: r :=
    rest_cons_bump ⟨c.input, c.ofs + 1⟩ h2 _ r1
  have r3 : Parse_Context.rest ⟨c.input, c.ofs + 1 + 1 + 1⟩ = h4 :: r :=
    rest_cons_bump ⟨c.input, c.ofs + 1 + 1⟩ h3 _ r2
  simp only [fromHex16,
    fromHexStep_ok 0 c h1 _ hrest hh1 (by omega),
    fromHexStep_ok (0 * 16 + hexVal h1) ⟨c.input, c.ofs + 1⟩ h2 _ r1 hh2 (by omega),
    fromHexStep_ok ((0 * 16 + hexVal h1) * 16 + hexVal h2) ⟨c.input, c.ofs + 1 + 1⟩ h3 _ r2 hh3
      (by omega),
    fromHexStep_ok (((0 * 16 + hexVal h1) * 16 + hexVal h2) * 16 + hexVal h3)
      ⟨c.input, c.ofs + 1 + 1 + 1⟩ h4 _ r3 hh4 (by omega)]
  simp only [Except.ok.injEq, Prod.mk.injEq, Parse_Context.mk.injEq, true_and]
  constructor
  · omega
  · trivial

/-- C9: in `readJsonString`, a `\uXXXX` escape consumes exactly the
backslash, the `u`, and four hex digits (six input bytes), decodes the
digits into the single UTF-16 code unit `h1*4096 + h2*256 + h3*16 + h4`,
and delivers it through the `push_back_utf16` callback `pbU` — the
plain-byte callback plays no part in the step; and the hex decoder rejects
every character outside `0-9`, `a-f`, `A-F` with a parse error whose
message names the offending character. -/
theorem c9_unicode_escape :
    (∀ c : Nat, ¬ isHexDigit c →
      fromHex1 c = .error (.parse ("invalid hexadecimal: " ++ (Char.ofNat c).toString))) ∧
    (∀ (α : Type) (pbB pbU : Nat → α → Except Err α) (f : Nat) (ctx : Parse_Context)
      (a a' : α) (h1 h2 h3 h4 : Nat) (r : List Nat),
      ctx.rest = 92 :: 117 :: h1 :: h2 :: h3 :: h4 :: r →
      isHexDigit h1 → isHexDigit h2 → isHexDigit h3 → isHexDigit h4 →
      pbU (hexVal h1 * 4096 + hexVal h2 * 256 + hexVal h3 * 16 + hexVal h4) a = .ok a' →
      readJsonStringLoop pbB pbU (f + 1) ctx a =
        readJsonStringLoop pbB pbU f ⟨ctx.input, ctx.ofs + 6⟩ a') ∧
    (∀ (α : Type) (pbB pbU : Nat → α → Except Err α) (f : Nat) (ctx : Parse_Context)
      (a : α) (e : Err) (h1 h2 h3 h4 : Nat) (r : List Nat),
      ctx.rest = 92 :: 117 :: h1 :: h2 :: h3 :: h4 :: r →
      isHexDigit h1 → isHexDigit h2 → isHexDigit h3 → isHexDigit h4 →
      pbU (hexVal h1 * 4096 + hexVal h2 * 256 + hexVal h3 * 16 + hexVal h4) a = .error e →
      readJsonStringLoop pbB pbU (f + 1) ctx a = .error (e, ⟨ctx.input, ctx.ofs + 6⟩)) := by
  refine ⟨fromHex1_err, ?_, ?_⟩
  · intro α pbB pbU f ctx a a' h1 h2 h3 h4 r hrest hh1 hh2 hh3 hh4 hpb
    have hhex := fromHex16_ok ⟨ctx.input, ctx.ofs + 1 + 1⟩ h1 h2 h3 h4 r
      (rest_cons_bump ⟨ctx.input, ctx.ofs + 1⟩ 117 _ (rest_cons_bump ctx 92 _ hrest))
      hh1 hh2 hh3 hh4
    rw [genLoop_u_ok pbB pbU f ctx _ a a' _ _ hrest hhex hpb]
  · intro α pbB pbU f ctx a e h1 h2 h3 h4 r hrest hh1 hh2 hh3 hh4 hpb
    have hhex := fromHex16_ok ⟨ctx.input, ctx.ofs + 1 + 1⟩ h1 h2 h3 h4 r
      (rest_cons_bump ⟨ctx.input, ctx.ofs + 1⟩ 117 _ (rest_cons_bump ctx 92 _ hrest))
      hh1 hh2 hh3 hh4
    rw [genLoop_u_err pbB pbU f ctx _ a e _ _ hrest hhex hpb]

/-- Witness for C9: the non-hex character `g` and the escape `A`. -/
theorem c9_unicode_escape_witness :
    fromHex1 103 = .error (.parse ("invalid hexadecimal: " ++ (Char.ofNat 103).toString)) ∧
    readJsonStringLoop collectB collectU 2 ⟨[92, 117, 48, 48, 52, 49, 34], 0⟩ [] =
      readJsonStringLoop collectB collectU 1 ⟨[92, 117, 48, 48, 52, 49, 34], 0 + 6⟩
        [JsonTok.u16 65] :=
  ⟨c9_unicode_escape.1 103 (by decide),
   c9_unicode_escape.2.1 (List JsonTok) collectB collectU 1 ⟨[92, 117, 48, 48, 52, 49, 34], 0⟩
     [] [JsonTok.u16 65] 48 48 52 49 [34] rfl (by decide) (by decide) (by decide) (by decide) rfl⟩

theorem scanLoop_acc (fuel : Nat) : ∀ (ctx : Parse_Context) (acc : List JsonTok),
    readJsonStringLoop collectB collectU fuel ctx acc =
      match readJsonStringLoop collectB collectU fuel ctx [] with
      | .ok (t, c2) => .ok (acc ++ t, c2)
      | .error e => .error e := by
  induction fuel with
  | zero => intro ctx acc; rfl
  | succ f ih =>
    intro ctx acc
    rcases hr : ctx.rest with _ | ⟨x, r⟩
    · rw [genLoop_eof collectB collectU f ctx acc hr, genLoop_eof collectB collectU f ctx [] hr]
    · by_cases hx34 : x = 34
      · subst hx34
        rw [genLoop_stop collectB collectU f ctx acc r hr,
          genLoop_stop collectB collectU f ctx [] r hr]
        simp
      · by_cases hx92 : x = 92
        · subst hx92
          rcases r with _ | ⟨e2, r2⟩
          · rw [genLoop_esc_eof collectB collectU f ctx acc hr,
              genLoop_esc_eof collectB collectU f ctx [] hr]
          · by_cases he : e2 = 117
            · subst he
              rcases hhex : fromHex16 ⟨ctx.input, ctx.ofs + 1 + 1⟩ with ep | ⟨u, c3⟩
              · rw [genLoop_u_hex_err collectB collectU f ctx acc r2 ep hr hhex,
                  genLoop_u_hex_err collectB collectU f ctx [] r2 ep hr hhex]
              · rw [genLoop_u_ok collectB collectU f ctx c3 acc (acc ++ [JsonTok.u16 u])
                    r2 u hr hhex rfl,
                  genLoop_u_ok collectB collectU f ctx c3 [] [JsonTok.u16 u] r2 u hr hhex rfl,
                  ih c3 (acc ++ [JsonTok.u16 u]), ih c3 [JsonTok.u16 u]]
                cases hb : readJsonStringLoop collectB collectU f c3 [] with
                | ok p => cases p; simp
                | error e => simp
            · rcases hdec : escDecode e2 with _ | b
              · rw [genLoop_esc_bad collectB collectU f ctx acc e2 r2 hr he hdec,
                  genLoop_esc_bad collectB collectU f ctx [] e2 r2 hr he hdec]
              · rw [genLoop_esc_ok collectB collectU f ctx acc (acc ++ [JsonTok.byte b])
                    e2 b r2 hr he hdec rfl,
                  genLoop_esc_ok collectB collectU f ctx [] [JsonTok.byte b] e2 b r2 hr he hdec rfl,
                  ih ⟨ctx.input, ctx.ofs + 1 + 1⟩ (acc ++ [JsonTok.byte b]),
                  ih ⟨ctx.input, ctx.ofs + 1 + 1⟩ [JsonTok.byte b]]
                cases hb : readJsonStringLoop collectB collectU f ⟨ctx.input, ctx.ofs + 1 + 1⟩ [] with
                | ok p => cases p; simp
                | error e => simp
        · rw [genLoop_plain_ok collectB collectU f ctx acc (acc ++ [JsonTok.byte x])
              x r hr hx34 hx92 rfl,
            genLoop_plain_ok collectB collectU f ctx [] [JsonTok.byte x] x r hr hx34 hx92 rfl,
            ih ⟨ctx.input, ctx.ofs + 1⟩ (acc ++ [JsonTok.byte x]),
            ih ⟨ctx.input, ctx.ofs + 1⟩ [JsonTok.byte x]]
          cases hb : readJsonStringLoop collectB collectU f ⟨ctx.input, ctx.ofs + 1⟩ [] with
          | ok p => cases p; simp
          | error e => simp

theorem scanLoop_sim (fuel : Nat) : ∀ (ctx : Parse_Context) (toks : List JsonTok) (c2 : Parse_Context),
    readJsonStringLoop collectB collectU fuel ctx [] = .ok (toks, c2) →
    ∀ (α : Type) (pbB pbU : Nat → α → Except Err α) (a : α),
    (∀ a2, foldTokens pbB pbU toks a = .ok a2 →
      readJsonStringLoop pbB pbU fuel ctx a = .ok (a2, c2)) ∧
    (∀ e, foldTokens pbB pbU toks a = .error e →
      ∃ cm, readJsonStringLoop pbB pbU fuel ctx a = .error (e, cm)) := by
  induction fuel with
  | zero =>
    intro ctx toks c2 hscan
    rw [show readJsonStringLoop collectB collectU 0 ctx [] = .error (.fuel, ctx) from rfl] at hscan
    exact absurd hscan (by simp)
  | succ f ih =>
    intro ctx toks c2 hscan α pbB pbU a
    rcases hr : ctx.rest with _ | ⟨x, r⟩
    · rw [genLoop_eof collectB collectU f ctx [] hr] at hscan
      exact absurd hscan (by simp)
    · by_cases hx34 : x = 34
      · subst hx34
        rw [genLoop_stop collectB collectU f ctx [] r hr] at hscan
        obtain ⟨htoks, hc2⟩ : [] = toks ∧ (⟨ctx.input, ctx.ofs + 1⟩ : Parse_Context) = c2 := by
          simpa using hscan
        subst htoks
        subst hc2
        constructor
        · intro a2 hfold
          obtain rfl : a = a2 := by simpa [foldTokens] using hfold
          exact genLoop_stop pbB pbU f ctx a r hr
        · intro e hfold
          simp [foldTokens] at hfold
      · by_cases hx92 : x = 92
        · subst hx92
          rcases r with _ | ⟨e2, r2⟩
          · rw [genLoop_esc_eof collectB collectU f ctx [] hr] at hscan
            exact absurd hscan (by simp)
          · by_cases he : e2 = 117
            · subst he
              rcases hhex : fromHex16 ⟨ctx.input, ctx.ofs + 1 + 1⟩ with ep | ⟨u, c3⟩
              · rw [genLoop_u_hex_err collectB collectU f ctx [] r2 ep hr hhex] at hscan
                exact absurd hscan (by simp)
              · rw [genLoop_u_ok collectB collectU f ctx c3 [] [JsonTok.u16 u] r2 u hr hhex rfl,
                  scanLoop_acc f c3 [JsonTok.u16 u]] at hscan
                cases hb : readJsonStringLoop collectB collectU f c3 [] with
                | error e0 =>
                  rw [hb] at hscan
                  exact absurd hscan (by simp)
                | ok p =>
                  obtain ⟨t0, c0⟩ := p
                  rw [hb] at hscan
                  obtain ⟨htoks, hc2⟩ : JsonTok.u16 u :: t0 = toks ∧ c0 = c2 := by
                    simpa using hscan
                  subst htoks
                  subst hc2
                  have IH := ih c3 t0 c0 hb α pbB pbU
                  constructor
                  · intro a2 hfold
                    simp only [foldTokens] at hfold
                    cases hpb : pbU u a with
                    | error e0 =>
                      rw [hpb] at hfold
                      exact absurd hfold (by simp)
                    | ok a1 =>
                      rw [hpb] at hfold
                      rw [genLoop_u_ok pbB pbU f ctx c3 a a1 r2 u hr hhex hpb]
                      exact (IH a1).1 a2 hfold
                  · intro e hfold
                    simp only [foldTokens] at hfold
                    cases hpb : pbU u a with
                    | error e0 =>
                      rw [hpb] at hfold
                      obtain rfl : e0 = e := by simpa using hfold
                      exact ⟨c3, genLoop_u_err pbB pbU f ctx c3 a e0 r2 u hr hhex hpb⟩
                    | ok a1 =>
                      rw [hpb] at hfold
                      obtain ⟨cm, hcm⟩ := (IH a1).2 e hfold
                      exact ⟨cm, by
                        rw [genLoop_u_ok pbB pbU f ctx c3 a a1 r2 u hr hhex hpb]
                        exact hcm⟩
            · rcases hdec : escDecode e2 with _ | b
              · rw [genLoop_esc_bad collectB collectU f ctx [] e2 r2 hr he hdec] at hscan
                exact absurd hscan (by simp)
              · rw [genLoop_esc_ok collectB collectU f ctx [] [JsonTok.byte b] e2 b r2 hr he hdec rfl,
                  scanLoop_acc f ⟨ctx.input, ctx.ofs + 1 + 1⟩ [JsonTok.byte b]] at hscan
                cases hb : readJsonStringLoop collectB collectU f ⟨ctx.input, ctx.ofs + 1 + 1⟩ [] with
                | error e0 =>
                  rw [hb] at hscan
                  exact absurd hscan (by simp)
                | ok p =>
                  obtain ⟨t0, c0⟩ := p
                  rw [hb] at hscan
                  obtain ⟨htoks, hc2⟩ : JsonTok.byte b :: t0 = toks ∧ c0 = c2 := by
                    simpa using hscan
                  subst htoks
                  subst hc2
                  have IH := ih ⟨ctx.input, ctx.ofs + 1 + 1⟩ t0 c0 hb α pbB pbU
                  constructor
                  · intro a2 hfold
                    simp only [foldTokens] at hfold
                    cases hpb : pbB b a with
                    | error e0 =>
                      rw [hpb] at hfold
                      exact absurd hfold (by simp)
                    | ok a1 =>
                      rw [hpb] at hfold
                      rw [genLoop_esc_ok pbB pbU f ctx a a1 e2 b r2 hr he hdec hpb]
                      exact (IH a1).1 a2 hfold
                  · intro e hfold
                    simp only [foldTokens] at hfold
                    cases hpb : pbB b a with
                    | error e0 =>
                      rw [hpb] at hfold
                      obtain rfl : e0 = e := by simpa using hfold
                      exact ⟨⟨ctx.input, ctx.ofs + 1 + 1⟩,
                        genLoop_esc_err pbB pbU f ctx a e0 e2 b r2 hr he hdec hpb⟩
                    | ok a1 =>
                      rw [hpb] at hfold
                      obtain ⟨cm, hcm⟩ := (IH a1).2 e hfold
                      exact ⟨cm, by
                        rw [genLoop_esc_ok pbB pbU f ctx a a1 e2 b r2 hr he hdec hpb]
                        exact hcm⟩
        · rw [genLoop_plain_ok collectB collectU f ctx [] [JsonTok.byte x] x r hr hx34 hx92 rfl,
            scanLoop_acc f ⟨ctx.input, ctx.ofs + 1⟩ [JsonTok.byte x]] at hscan
          cases hb : readJsonStringLoop collectB collectU f ⟨ctx.input, ctx.ofs + 1⟩ [] with
          | error e0 =>
            rw [hb] at hscan
            exact absurd hscan (by simp)
          | ok p =>
            obtain ⟨t0, c0⟩ := p
            rw [hb] at hscan
            obtain ⟨htoks, hc2⟩ : JsonTok.byte x :: t0 = toks ∧ c0 = c2 := by
              simpa using hscan
            subst htoks
            subst hc2
            have IH := ih ⟨ctx.input, ctx.ofs + 1⟩ t0 c0 hb α pbB pbU
            constructor
            · intro a2 hfold
              simp only [foldTokens] at hfold
              cases hpb : pbB x a with
              | error e0 =>
                rw [hpb] at hfold
                exact absurd hfold (by simp)
              | ok a1 =>
                rw [hpb] at hfold
                rw [genLoop_plain_ok pbB pbU f ctx a a1 x r hr hx34 hx92 hpb]
                exact (IH a1).1 a2 hfold
            · intro e hfold
              simp only [foldTokens] at hfold
              cases hpb : pbB x a with
              | error e0 =>
                rw [hpb] at hfold
                obtain rfl : e0 = e := by simpa using hfold
                exact ⟨⟨ctx.input, ctx.ofs + 1⟩,
                  genLoop_plain_err pbB pbU f ctx a e0 x r hr hx34 hx92 hpb⟩
              | ok a1 =>
                rw [hpb] at hfold
                obtain ⟨cm, hcm⟩ := (IH a1).2 e hfold
                exact ⟨cm, by
                  rw [genLoop_plain_ok pbB pbU f ctx a a1 x r hr hx34 hx92 hpb]
                  exact hcm⟩

theorem readJsonString_sim (fuel : Nat) (ctx : Parse_Context) (toks : List JsonTok)
    (c2 : Parse_Context) (hscan : scanTokens fuel ctx = .ok (toks, c2))
    (α : Type) (pbB pbU : Nat → α → Except Err α) (a : α) :
    (∀ a2, foldTokens pbB pbU toks a = .ok a2 →
      readJsonString pbB pbU fuel ctx a = .ok (a2, c2)) ∧
    (∀ e, foldTokens pbB pbU toks a = .error e →
      ∃ cm, readJsonString pbB pbU fuel ctx a = .error (e, cm)) := by
  unfold scanTokens at hscan
  unfold readJsonString at hscan ⊢
  cases hq : (skipJsonWhitespace ctx).expectChar 34 with
  | error e =>
    rw [hq] at hscan
    exact absurd hscan (by simp)
  | ok c1 =>
    rw [hq] at hscan
    exact scanLoop_sim fuel c1 toks c2 hscan α pbB pbU a

theorem foldTokens_cons_byte {α : Type} (pbB pbU : Nat → α → Except Err α) (c : Nat)
    (r : List JsonTok) (a : α) :
    foldTokens pbB pbU (.byte c :: r) a =
      match pbB c a with
      | .ok a' => foldTokens pbB pbU r a'
      | .error e => .error e := rfl

theorem foldTokens_cons_u16 {α : Type} (pbB pbU : Nat → α → Except Err α) (u : Nat)
    (r : List JsonTok) (a : α) :
    foldTokens pbB pbU (.u16 u :: r) a =
      match pbU u a with
      | .ok a' => foldTokens pbB pbU r a'
      | .error e => .error e := rfl

theorem extCB_full (u : Nat) (d : List Nat) (hu : u ≤ 127) :
    extCB u ⟨d, d.length⟩ = .error Err.outOfRange := by
  unfold extCB external_buffer.push_back
  rw [if_neg (by omega : ¬ 127 < u)]
  simp

theorem extCB_fits (u : Nat) (d : List Nat) (m : Nat) (hu : u ≤ 127) (hlt : ¬ d.length = m) :
    extCB u ⟨d, m⟩ = .ok ⟨d ++ [u], m⟩ := by
  unfold extCB external_buffer.push_back
  rw [if_neg (by omega : ¬ 127 < u)]
  simp [hlt, Nat.mod_eq_of_lt (by omega : u < 256)]

theorem foldTokens_ext (toks : List JsonTok) : ∀ (d : List Nat) (m : Nat),
    (∀ t ∈ toks, tokU16 t ≤ 127) → d.length ≤ m →
    foldTokens (fun ch b => extCB (byteToU16 ch) b) extCB toks ⟨d, m⟩ =
      if d.length + toks.length ≤ m then .ok ⟨d ++ toks.map tokU16, m⟩
      else .error Err.outOfRange := by
  induction toks with
  | nil =>
    intro d m _ hd
    simp only [foldTokens, List.length_nil, Nat.add_zero, List.map_nil, List.append_nil]
    rw [if_pos hd]
  | cons t ts ih =>
    intro d m hall hd
    have ht : tokU16 t ≤ 127 := hall t (by simp)
    have hall' : ∀ x ∈ ts, tokU16 x ≤ 127 := fun x hx => hall x (by simp [hx])
    cases t with
    | byte c =>
      have ht' : byteToU16 c ≤ 127 := ht
      rw [foldTokens_cons_byte]
      by_cases hdm : d.length = m
      · subst hdm
        rw [extCB_full _ d ht', if_neg (by simp only [List.length_cons]; omega)]
      · rw [extCB_fits _ d m ht' hdm]
        simp only []
        rw [ih]
        · split_ifs with h1 h2 <;>
            first
              | simp [tokU16, List.append_assoc]
              | (exfalso
                 simp only [List.length_append, List.length_cons, List.length_nil] at *
                 omega)
        · exact hall'
        · simp only [List.length_append, List.length_cons, List.length_nil]
          omega
    | u16 u =>
      have ht' : u ≤ 127 := ht
      rw [foldTokens_cons_u16]
      by_cases hdm : d.length = m
      · subst hdm
        rw [extCB_full _ d ht', if_neg (by simp only [List.length_cons]; omega)]
      · rw [extCB_fits _ d m ht' hdm]
        simp only []
        rw [ih]
        · split_ifs with h1 h2 <;>
            first
              | simp [tokU16, List.append_assoc]
              | (exfalso
                 simp only [List.length_append, List.length_cons, List.length_nil] at *
                 omega)
        · exact hall'
        · simp only [List.length_append, List.length_cons, List.length_nil]
          omega

theorem foldTokens_ext_bad (pre : List JsonTok) :
    ∀ (t : JsonTok) (rest : List JsonTok) (d : List Nat) (m : Nat),
    (∀ x ∈ pre, tokU16 x ≤ 127) → 127 < tokU16 t → d.length + pre.length ≤ m →
    foldTokens (fun ch b => extCB (byteToU16 ch) b) extCB (pre ++ t :: rest) ⟨d, m⟩ =
      .error (.parse "non-ASCII string character") := by
  induction pre with
  | nil =>
    intro t rest d m _ ht _
    show foldTokens (fun ch b => extCB (byteToU16 ch) b) extCB (t :: rest) ⟨d, m⟩ = _
    cases t with
    | byte c =>
      have ht' : 127 < byteToU16 c := ht
      rw [foldTokens_cons_byte]
      rw [show extCB (byteToU16 c) ⟨d, m⟩ = .error (.parse "non-ASCII string character") from by
        unfold extCB
        rw [if_pos ht']]
    | u16 u =>
      have ht' : 127 < u := ht
      rw [foldTokens_cons_u16]
      rw [show extCB u ⟨d, m⟩ = .error (.parse "non-ASCII string character") from by
        unfold extCB
        rw [if_pos ht']]
  | cons x pre ih =>
    intro t rest d m hall ht hlen
    have hx : tokU16 x ≤ 127 := hall x (by simp)
    have hall' : ∀ y ∈ pre, tokU16 y ≤ 127 := fun y hy => hall y (by simp [hy])
    simp only [List.length_cons] at hlen
    show foldTokens (fun ch b => extCB (byteToU16 ch) b) extCB
      (x :: (pre ++ t :: rest)) ⟨d, m⟩ = _
    cases x with
    | byte c =>
      have hx' : byteToU16 c ≤ 127 := hx
      rw [foldTokens_cons_byte, extCB_fits _ d m hx' (by omega)]
      simp only []
      exact ih t rest _ m hall' ht
        (by simp only [List.length_append, List.length_cons, List.length_nil]; omega)
    | u16 u =>
      have hx' : u ≤ 127 := hx
      rw [foldTokens_cons_u16, extCB_fits _ d m hx' (by omega)]
      simp only []
      exact ih t rest _ m hall' ht
        (by simp only [List.length_append, List.length_cons, List.length_nil]; omega)

theorem foldTokens_perm (toks : List JsonTok) : ∀ (r : Nat) (g : growing_buffer), r ≤ 255 →
    foldTokens (fun ch b => permissiveCB r (byteToU16 ch) b) (permissiveCB r) toks g =
      .ok (gbPushAll (toks.map fun t => if 127 < tokU16 t then r else tokU16 t) g) := by
  induction toks with
  | nil => intro r g _; rfl
  | cons t ts ih =>
    intro r g hr
    have hb : ∀ u : Nat, u = tokU16 t → (if 127 < u then byteToU16 r else u) % 256 =
        (if 127 < tokU16 t then r else tokU16 t) := by
      intro u hu
      subst hu
      by_cases h : 127 < tokU16 t
      · rw [if_pos h, if_pos h]
        unfold byteToU16
        split_ifs <;> omega
      · rw [if_neg h, if_neg h]
        omega
    cases t with
    | byte c =>
      rw [foldTokens_cons_byte]
      unfold permissiveCB
      rw [hb (byteToU16 c) rfl]
      simp only []
      exact ih r (g.push_back (if 127 < tokU16 (JsonTok.byte c) then r
        else tokU16 (JsonTok.byte c))) hr
    | u16 u =>
      rw [foldTokens_cons_u16]
      unfold permissiveCB
      rw [hb u rfl]
      simp only []
      exact ih r (g.push_back (if 127 < tokU16 (JsonTok.u16 u) then r
        else tokU16 (JsonTok.u16 u))) hr

/-- C6 counterexample: the buffer-bounded `expectJsonStringAscii` does not
raise on every decoded code unit above 127 — on `"aaé"` (byte 195) with
`maxLength = 1`, the buffer overflows at the second `a`, before the
non-ASCII byte is reached, and the function returns the sentinel `-1` even
though the scan delivers a unit above 127. -/
theorem c6_overflow_preempts_nonascii_cex :
    expectJsonStringAsciiBuf 5 1 (mkCtx [34, 97, 97, 195, 34]) =
      .ok (-1, ⟨[34, 97, 97, 195, 34], 3⟩) ∧
    scanTokens 5 (mkCtx [34, 97, 97, 195, 34]) =
      .ok ([.byte 97, .byte 97, .byte 195], ⟨[34, 97, 97, 195, 34], 5⟩) ∧
    127 < tokU16 (.byte 195) :=
  ⟨rfl, rfl, by decide⟩

/-- C6 amended: the first offending condition in scan order wins.  For the
buffer-bounded `expectJsonStringAscii`: when the scan succeeds, every
delivered code unit is ASCII, and the string (plus its NUL terminator)
does not fit in `maxLength` bytes, it returns the sentinel `-1` instead of
raising; when the first code unit above 127 is reached before the buffer
overflows, it raises the "non-ASCII string character" error.  The
permissive variant substitutes the caller-supplied replacement byte for
every code unit above 127 and never raises on non-ASCII content. -/
theorem c6_ascii_variants_amended :
    (∀ (fuel m : Nat) (ctx : Parse_Context) (toks : List JsonTok) (c2 : Parse_Context),
      scanTokens fuel ctx = .ok (toks, c2) →
      (∀ t ∈ toks, tokU16 t ≤ 127) →
      m ≤ toks.length →
      ∃ cm, expectJsonStringAsciiBuf fuel m ctx = .ok (-1, cm)) ∧
    (∀ (fuel m : Nat) (ctx : Parse_Context) (pre : List JsonTok) (t : JsonTok)
      (rest : List JsonTok) (c2 : Parse_Context),
      scanTokens fuel ctx = .ok (pre ++ t :: rest, c2) →
      (∀ x ∈ pre, tokU16 x ≤ 127) →
      127 < tokU16 t →
      pre.length ≤ m →
      ∃ cm, expectJsonStringAsciiBuf fuel m ctx =
        .error (.parse "non-ASCII string character", cm)) ∧
    (∀ (fuel r : Nat) (ctx : Parse_Context) (toks : List JsonTok) (c2 : Parse_Context),
      r ≤ 255 →
      scanTokens fuel ctx = .ok (toks, c2) →
      expectJsonStringAsciiPermissive fuel r ctx =
        .ok (toks.map (fun t => if 127 < tokU16 t then r else tokU16 t), c2)) := by
  refine ⟨?_, ?_, ?_⟩
  · intro fuel m ctx toks c2 hscan hall hm
    have hsim := readJsonString_sim fuel ctx toks c2 hscan external_buffer
      (fun ch b => extCB (byteToU16 ch) b) extCB ⟨[], m⟩
    have hfold := foldTokens_ext toks [] m hall (by simp)
    by_cases hfits : toks.length ≤ m
    · have hme : m = toks.length := Nat.le_antisymm hm hfits
      rw [if_pos (by simp only [List.length_nil, Nat.zero_add]; omega)] at hfold
      have hrun := hsim.1 _ hfold
      refine ⟨c2, ?_⟩
      unfold expectJsonStringAsciiBuf
      rw [hrun]
      simp only []
      rw [show external_buffer.push_back ⟨[] ++ toks.map tokU16, m⟩ 0 = .error .outOfRange from by
        unfold external_buffer.push_back
        rw [if_pos (by simp only [List.nil_append, List.length_map]; omega)]]
    · rw [if_neg (by simp only [List.length_nil, Nat.zero_add]; omega)] at hfold
      obtain ⟨cm, hcm⟩ := hsim.2 _ hfold
      refine ⟨cm, ?_⟩
      unfold expectJsonStringAsciiBuf
      rw [hcm]
  · intro fuel m ctx pre t rest c2 hscan hall ht hm
    have hsim := readJsonString_sim fuel ctx (pre ++ t :: rest) c2 hscan external_buffer
      (fun ch b => extCB (byteToU16 ch) b) extCB ⟨[], m⟩
    have hfold := foldTokens_ext_bad pre t rest [] m hall ht
      (by simp only [List.length_nil, Nat.zero_add]; omega)
    obtain ⟨cm, hcm⟩ := hsim.2 _ hfold
    refine ⟨cm, ?_⟩
    unfold expectJsonStringAsciiBuf
    rw [hcm]
  · intro fuel r ctx toks c2 hr hscan
    have hsim := readJsonString_sim fuel ctx toks c2 hscan growing_buffer
      (fun ch b => permissiveCB r (byteToU16 ch) b) (permissiveCB r) growing_buffer.mk0
    have hfold := foldTokens_perm toks r growing_buffer.mk0 hr
    have hrun := hsim.1 _ hfold
    unfold expectJsonStringAsciiPermissive
    rw [hrun]
    simp only []
    rw [gbPushAll_data]
    rfl

/-- Witness for the amended C6: `"ab"` into a one-byte buffer returns
`-1`; `"é"` with room to spare raises; the permissive variant replaces the
non-ASCII byte with `?` (63). -/
theorem c6_ascii_variants_amended_witness :
    (∃ cm, expectJsonStringAsciiBuf 5 1 (mkCtx [34, 97, 98, 34]) = .ok (-1, cm)) ∧
    (∃ cm, expectJsonStringAsciiBuf 5 5 (mkCtx [34, 195, 34]) =
      .error (.parse "non-ASCII string character", cm)) ∧
    expectJsonStringAsciiPermissive 5 63 (mkCtx [34, 195, 34]) =
      .ok ([JsonTok.byte 195].map (fun t => if 127 < tokU16 t then 63 else tokU16 t),
        ⟨[34, 195, 34], 3⟩) :=
  ⟨c6_ascii_variants_amended.1 5 1 (mkCtx [34, 97, 98, 34]) [.byte 97, .byte 98]
      ⟨[34, 97, 98, 34], 4⟩ rfl (by decide) (by decide),
   c6_ascii_variants_amended.2.1 5 5 (mkCtx [34, 195, 34]) [] (.byte 195) []
      ⟨[34, 195, 34], 3⟩ rfl (by simp) (by decide) (by decide),
   c6_ascii_variants_amended.2.2 5 63 (mkCtx [34, 195, 34]) [.byte 195]
      ⟨[34, 195, 34], 3⟩ (by decide) rfl⟩
